import Mathlib

/-!
Verification of the appmorph task-chain orchestration core.

The definitions below are shallow embeddings of the TypeScript sources:
  * `packages/core/src/persistence/index.ts` (TaskPersistence: the chain ledger),
  * `packages/core/src/server/routes/chain.ts` (the rollback HTTP route),
  * the staging manager (`FileSystemStagingManager`),
  * the build manager (`FileSystemBuildManager`),
  * the hook runner (`HookRunner`) and the task executor (`TaskExecutorImpl`).

The in-place JSON ledger is modelled as a `List` of entries threaded through
the operations; filesystem side effects are modelled as explicit state.
-/

namespace Appmorph

/-- Status of a persisted ledger entry (`'active' | 'rolled_back'`). -/
inductive EntryStatus where
  | active
  | rolled_back
deriving DecidableEq, Repr

/-- A persisted chain ledger row after migration, mirroring `PersistedTaskEntry`
with its chain fields present (`session_id`, `appmorph_user_id`, `prompt`,
`created_at`, `chain_position`, `parent_session_id`, `status`). -/
structure PersistedTaskEntry where
  session_id : String
  appmorph_user_id : String
  prompt : String
  created_at : Nat
  chain_position : Nat
  parent_session_id : Option String
  status : EntryStatus
deriving DecidableEq, Repr

/-- The mutation condition of `TaskPersistence.rollbackToPosition`: the entry
belongs to the user, sits strictly after the target position and is active. -/
def rollbackHits (u : String) (target : Int) (t : PersistedTaskEntry) : Prop :=
  t.appmorph_user_id = u ∧ (t.chain_position : Int) > target ∧ t.status = .active

instance (u : String) (target : Int) : DecidablePred (rollbackHits u target) := by
  intro t
  unfold rollbackHits
  infer_instance

/-- `task.status = 'rolled_back'` as performed inside the `forEach` of
`rollbackToPosition`. -/
def markRolledBack (t : PersistedTaskEntry) : PersistedTaskEntry :=
  { t with status := .rolled_back }

/-- `TaskPersistence.rollbackToPosition(appmorphUserId, targetPosition)`:
marks every active entry of the user with `chain_position > targetPosition` as
rolled back.  Returns the updated ledger together with the list of mutated
entries (pushed in ledger order, already carrying their new status). -/
def rollbackToPosition (tasks : List PersistedTaskEntry) (u : String) (target : Int) :
    List PersistedTaskEntry × List PersistedTaskEntry :=
  (tasks.map fun t => if rollbackHits u target t then markRolledBack t else t,
   (tasks.filter fun t => decide (rollbackHits u target t)).map markRolledBack)

/-- The deletion condition of `TaskPersistence.deleteRolledBackEntries`. -/
def isUserRolledBack (u : String) (t : PersistedTaskEntry) : Prop :=
  t.appmorph_user_id = u ∧ t.status = .rolled_back

instance (u : String) : DecidablePred (isUserRolledBack u) := by
  intro t
  unfold isUserRolledBack
  infer_instance

/-- `TaskPersistence.deleteRolledBackEntries(appmorphUserId)`: physically drops
the user's rolled-back entries; returns the updated ledger and the deleted
session ids. -/
def deleteRolledBackEntries (tasks : List PersistedTaskEntry) (u : String) :
    List PersistedTaskEntry × List String :=
  (tasks.filter fun t => !decide (isUserRolledBack u t),
   (tasks.filter fun t => decide (isUserRolledBack u t)).map (·.session_id))

/-- Stable insertion of `x` into a list already sorted by `lt`; `x` lands
before the first element not `lt`-below it, so equal keys keep their original
relative order (`Array.prototype.sort` is stable). -/
def insertSortedBy (lt : α → α → Bool) (x : α) : List α → List α
  | [] => [x]
  | y :: ys => if lt y x then y :: insertSortedBy lt x ys else x :: y :: ys

/-- Stable sort by the strict comparison `lt` (insertion sort). -/
def stableSortBy (lt : α → α → Bool) : List α → List α
  | [] => []
  | x :: xs => insertSortedBy lt x (stableSortBy lt xs)

/-- `TaskPersistence.getUserChain(appmorphUserId)`: the user's active entries
sorted by `chain_position` ascending. -/
def getUserChain (tasks : List PersistedTaskEntry) (u : String) :
    List PersistedTaskEntry :=
  stableSortBy (fun a b => decide (a.chain_position < b.chain_position))
    (tasks.filter fun t => decide (t.appmorph_user_id = u ∧ t.status = .active))

/-- `TaskPersistence.getTaskBySessionId(sessionId)` (`Array.prototype.find`). -/
def getTaskBySessionId (tasks : List PersistedTaskEntry) (sessionId : String) :
    Option PersistedTaskEntry :=
  tasks.find? fun t => decide (t.session_id = sessionId)

/-- The `chain_position` values of the user's active ledger entries, in ledger
order. -/
def activePositions (tasks : List PersistedTaskEntry) (u : String) : List Nat :=
  (tasks.filter fun t => decide (t.appmorph_user_id = u ∧ t.status = .active)).map
    (·.chain_position)

/-- A two-entry demo ledger used to instantiate hypotheses of the theorems. -/
def demoEntry0 : PersistedTaskEntry :=
  ⟨"s0", "u", "p0", 10, 0, none, .active⟩

/-- Second demo entry, chained after `demoEntry0`. -/
def demoEntry1 : PersistedTaskEntry :=
  ⟨"s1", "u", "p1", 20, 1, some "s0", .active⟩

/-- Demo ledger with two active entries for user `"u"`. -/
def demoTasks : List PersistedTaskEntry := [demoEntry0, demoEntry1]

/-- C1: `rollbackToPosition(userId, k)` flips to `rolled_back` exactly the
user's active entries with `chain_position > k`, keeps every other field of
every entry, leaves the user's active entries at positions `≤ k` active,
returns exactly the mutated entries (same session ids), and with `k = -1`
rolls back every active entry of the user. -/
theorem rollbackToPosition_spec (tasks : List PersistedTaskEntry) (u : String) (k : Int) :
    (rollbackToPosition tasks u k).1.length = tasks.length
    ∧ (∀ (i : Nat) (t : PersistedTaskEntry), tasks[i]? = some t →
        ∃ t2, (rollbackToPosition tasks u k).1[i]? = some t2
          ∧ t2.session_id = t.session_id
          ∧ t2.appmorph_user_id = t.appmorph_user_id
          ∧ t2.chain_position = t.chain_position
          ∧ t2.parent_session_id = t.parent_session_id
          ∧ (t2.status = .rolled_back ↔
              (t.status = .rolled_back
                ∨ (t.appmorph_user_id = u ∧ (t.chain_position : Int) > k
                    ∧ t.status = .active)))
          ∧ (t.appmorph_user_id = u → (t.chain_position : Int) ≤ k →
              t.status = .active → t2 = t))
    ∧ (rollbackToPosition tasks u k).2.map (·.session_id)
        = (tasks.filter fun t => decide (rollbackHits u k t)).map (·.session_id)
    ∧ (k = -1 → ∀ (i : Nat) (t : PersistedTaskEntry), tasks[i]? = some t → t.appmorph_user_id = u →
        t.status = .active →
        ∃ t2, (rollbackToPosition tasks u k).1[i]? = some t2
          ∧ t2.status = .rolled_back) := by
  refine ⟨by simp [rollbackToPosition],
    ?_, by simp [rollbackToPosition, markRolledBack, List.map_map, Function.comp_def], ?_⟩
  · intro i t ht
    refine ⟨if rollbackHits u k t then markRolledBack t else t, ?_, ?_⟩
    · simp [rollbackToPosition, List.getElem?_map, ht]
    · by_cases h : rollbackHits u k t
      · rw [if_pos h]
        refine ⟨rfl, rfl, rfl, rfl, ?_, ?_⟩
        · constructor
          · intro _
            exact Or.inr h
          · intro _
            rfl
        · intro hu hle hact
          exact absurd h.2.1 (not_lt.mpr hle)
      · rw [if_neg h]
        refine ⟨rfl, rfl, rfl, rfl, ?_, fun _ _ _ => rfl⟩
        constructor
        · intro hs
          exact Or.inl hs
        · rintro (hs | hcond)
          · exact hs
          · exact absurd hcond h
  · intro hk i t ht hu hact
    refine ⟨markRolledBack t, ?_, rfl⟩
    have h : rollbackHits u k t := by
      refine ⟨hu, ?_, hact⟩
      rw [hk]
      omega
    simp [rollbackToPosition, List.getElem?_map, ht, if_pos h]

/-- Closed instantiation of `rollbackToPosition_spec`: rolling the demo ledger
back to position 0 marks the entry at position 1 rolled back. -/
theorem rollbackToPosition_spec_witness :
    ∃ t2, (rollbackToPosition demoTasks "u" 0).1[1]? = some t2
      ∧ t2.status = .rolled_back := by
  obtain ⟨-, hpt, -, -⟩ := rollbackToPosition_spec demoTasks "u" 0
  obtain ⟨t2, h1, -, -, -, -, hiff, -⟩ := hpt 1 demoEntry1 (by decide)
  exact ⟨t2, h1, hiff.mpr (Or.inr (by decide))⟩

/-- Filtering commutes with mapping a function that fixes every element kept
by the filter and does not change filter membership. -/
theorem filter_map_fixed {α : Type} (p : α → Bool) (f : α → α)
    (hp : ∀ x, p (f x) = p x) (hf : ∀ x, p x = true → f x = x)
    (l : List α) : (l.map f).filter p = l.filter p := by
  induction l with
  | nil => rfl
  | cons x xs ih =>
    simp only [List.map_cons, List.filter_cons, hp x]
    cases hpx : p x
    · simp [ih]
    · rw [hf x hpx]
      simp [ih]

/-- A filter that only discards elements already outside `p` does not change
the `p`-fragment of a list. -/
theorem filter_filter_sub {α : Type} (p q : α → Bool)
    (h : ∀ x, p x = true → q x = true) (l : List α) :
    (l.filter q).filter p = l.filter p := by
  induction l with
  | nil => rfl
  | cons x xs ih =>
    cases hqx : q x
    · have hpx : p x = false := by
        cases hpx : p x
        · rfl
        · exact absurd (h x hpx) (by simp [hqx])
      simp [List.filter_cons, hqx, hpx, ih]
    · simp [List.filter_cons, hqx, ih]

/-- Entries of other users pass unchanged through the marking map of
`rollbackToPosition`. -/
theorem filter_other_map (u : String) (k : Int) (tasks : List PersistedTaskEntry) :
    ((tasks.map fun t => if rollbackHits u k t then markRolledBack t else t).filter
        fun t => !decide (t.appmorph_user_id = u))
      = tasks.filter (fun t => !decide (t.appmorph_user_id = u)) := by
  refine filter_map_fixed _ _ (fun x => ?_) (fun x hx => ?_) tasks
  · by_cases hh : rollbackHits u k x
    · rw [if_pos hh]
      rfl
    · rw [if_neg hh]
  · rw [if_neg]
    intro h
    simp only [Bool.not_eq_eq_eq_not, Bool.not_true, decide_eq_false_iff_not] at hx
    exact hx h.1

/-- Entries of other users pass unchanged through the deletion filter of
`deleteRolledBackEntries`. -/
theorem filter_other_del (u : String) (tasks : List PersistedTaskEntry) :
    ((tasks.filter fun t => !decide (isUserRolledBack u t)).filter
        fun t => !decide (t.appmorph_user_id = u))
      = tasks.filter (fun t => !decide (t.appmorph_user_id = u)) := by
  refine filter_filter_sub _ _ (fun x hx => ?_) tasks
  simp only [Bool.not_eq_eq_eq_not, Bool.not_true, decide_eq_false_iff_not] at hx ⊢
  intro h
  exact hx h.1

/-- C10: `rollbackToPosition(U, k)` and `deleteRolledBackEntries(U)` leave the
ledger entries of every other user completely unchanged (same fields, same
presence, same order), individually and composed. -/
theorem rollback_frame (tasks : List PersistedTaskEntry) (u : String) (k : Int) :
    ((rollbackToPosition tasks u k).1.filter
        fun t => !decide (t.appmorph_user_id = u))
      = tasks.filter (fun t => !decide (t.appmorph_user_id = u))
    ∧ ((deleteRolledBackEntries tasks u).1.filter
        fun t => !decide (t.appmorph_user_id = u))
      = tasks.filter (fun t => !decide (t.appmorph_user_id = u))
    ∧ (((deleteRolledBackEntries (rollbackToPosition tasks u k).1 u).1.filter
        fun t => !decide (t.appmorph_user_id = u))
      = tasks.filter (fun t => !decide (t.appmorph_user_id = u))) := by
  refine ⟨filter_other_map u k tasks, filter_other_del u tasks, ?_⟩
  have h1 := filter_other_del u (rollbackToPosition tasks u k).1
  have h2 := filter_other_map u k tasks
  simp only [deleteRolledBackEntries]
  simp only [rollbackToPosition] at h1 h2 ⊢
  rw [h1, h2]

/-- The active positions of user `u` after a rollback followed by deletion of
rolled-back entries are exactly the previous active positions at `≤ k`. -/
theorem activePositions_after (tasks : List PersistedTaskEntry) (u : String) (k : Int) :
    activePositions ((deleteRolledBackEntries (rollbackToPosition tasks u k).1 u).1) u
      = (activePositions tasks u).filter (fun p : Nat => decide ((p : Int) ≤ k)) := by
  induction tasks with
  | nil => rfl
  | cons x xs ih =>
    simp only [activePositions, rollbackToPosition, deleteRolledBackEntries] at ih ⊢
    rw [List.map_cons]
    by_cases hu : x.appmorph_user_id = u
    · by_cases hact : x.status = EntryStatus.active
      · by_cases hpos : (x.chain_position : Int) ≤ k
        · have hhits : ¬ rollbackHits u k x := fun h => absurd h.2.1 (not_lt.mpr hpos)
          have hdel : ¬ isUserRolledBack u x := by
            intro h
            have h2 := h.2
            rw [hact] at h2
            exact absurd h2 (by decide)
          rw [if_neg hhits]
          rw [List.filter_cons_of_pos (by simp [hdel])]
          rw [List.filter_cons_of_pos (by simp [hu, hact])]
          rw [List.map_cons]
          rw [List.filter_cons_of_pos (by simp [hu, hact])]
          rw [List.map_cons]
          rw [List.filter_cons_of_pos (by simp [hpos])]
          rw [ih]
        · have hhits : rollbackHits u k x := ⟨hu, lt_of_not_le hpos, hact⟩
          have hdel : isUserRolledBack u (markRolledBack x) := ⟨hu, rfl⟩
          rw [if_pos hhits]
          rw [List.filter_cons_of_neg (by simp [hdel])]
          rw [List.filter_cons_of_pos (by simp [hu, hact])]
          rw [List.map_cons]
          rw [List.filter_cons_of_neg (by simp [hpos])]
          exact ih
      · have hhits : ¬ rollbackHits u k x := fun h => hact h.2.2
        have hrb : x.status = EntryStatus.rolled_back := by
          cases hs : x.status
          · exact absurd hs hact
          · rfl
        have hdel : isUserRolledBack u x := ⟨hu, hrb⟩
        rw [if_neg hhits]
        rw [List.filter_cons_of_neg (by simp [hdel])]
        rw [List.filter_cons_of_neg (by simp [hact])]
        exact ih
    · have hhits : ¬ rollbackHits u k x := fun h => hu h.1
      have hdel : ¬ isUserRolledBack u x := fun h => hu h.1
      rw [if_neg hhits]
      rw [List.filter_cons_of_pos (by simp [hdel])]
      rw [List.filter_cons_of_neg (by simp [hu])]
      rw [List.filter_cons_of_neg (by simp [hu])]
      exact ih

/-- C2: if a user's active `chain_position`s are exactly `0..m-1` (gap-free
from 0, no duplicates), then after `rollbackToPosition(u, k)` followed by
`deleteRolledBackEntries(u)` they are exactly `0..min(k, m-1)` — again
gap-free from 0 with no duplicates. -/
theorem chain_invariant_preserved (tasks : List PersistedTaskEntry) (u : String)
    (k : Int) (m : Nat)
    (hnd : (activePositions tasks u).Nodup)
    (hmem : ∀ p : Nat, p ∈ activePositions tasks u ↔ p < m) :
    (activePositions ((deleteRolledBackEntries (rollbackToPosition tasks u k).1 u).1) u).Nodup
    ∧ ∀ p : Nat,
        p ∈ activePositions ((deleteRolledBackEntries (rollbackToPosition tasks u k).1 u).1) u
          ↔ (p : Int) < min (k + 1) (m : Int) := by
  rw [activePositions_after tasks u k]
  constructor
  · exact hnd.filter _
  · intro p
    rw [List.mem_filter]
    constructor
    · rintro ⟨hp, hle⟩
      have h1 := (hmem p).mp hp
      simp only [decide_eq_true_eq] at hle
      omega
    · intro h
      have hle : (p : Int) ≤ k := by omega
      have hpm : p < m := by omega
      exact ⟨(hmem p).mpr hpm, by simpa using hle⟩

/-- Closed instantiation of `chain_invariant_preserved` on the demo ledger
(positions `[0, 1]`, rollback to position 0). -/
theorem chain_invariant_preserved_witness :
    (activePositions ((deleteRolledBackEntries (rollbackToPosition demoTasks "u" 0).1 "u").1) "u").Nodup
    ∧ ∀ p : Nat,
        p ∈ activePositions ((deleteRolledBackEntries (rollbackToPosition demoTasks "u" 0).1 "u").1) "u"
          ↔ (p : Int) < min ((0 : Int) + 1) ((2 : Nat) : Int) :=
  chain_invariant_preserved demoTasks "u" 0 2 (by decide)
    (by
      intro p
      simp [activePositions, demoTasks, demoEntry0, demoEntry1]
      omega)

/-- The reserved target value of the rollback route that requests a full
reset (`'__reset_to_original__'`). -/
def RESET_TO_ORIGINAL : String := "__reset_to_original__"

/-- The body of the rollback route's HTTP reply (`RollbackResponse`). -/
structure RollbackResponse where
  success : Bool
  removed_sessions : List String
  current_session_id : Option String
  error : Option String
deriving DecidableEq, Repr

/-- Observable outcome of one `POST /api/chain/rollback` request: the reply,
the ledger after the request, which sessions had their stage (resp. deploy)
artifacts cleaned, and whether a cleanup error was caught. -/
structure RollbackRouteOutcome where
  response : RollbackResponse
  tasks : List PersistedTaskEntry
  cleanedStages : List String
  cleanedDeploys : List String
  cleanupFailed : Bool
deriving DecidableEq, Repr

/-- The `try { for (const sessionId of ids) { cleanupStage; cleanupDeploy } }
catch { log }` loop of the rollback route.  `stageFails`/`deployFails` say
whether the corresponding filesystem call throws for a session.  A throw is
caught by the single `catch` around the whole loop, so it ends the loop;
the function returns the sessions whose stage (resp. deploy) was cleaned and
whether an error was caught. -/
def cleanupSessions (stageFails deployFails : String → Bool) :
    List String → List String × List String × Bool
  | [] => ([], [], false)
  | sid :: rest =>
    if stageFails sid then ([], [], true)
    else if deployFails sid then ([sid], [], true)
    else
      let r := cleanupSessions stageFails deployFails rest
      (sid :: r.1, sid :: r.2.1, r.2.2)

/-- The `POST /api/chain/rollback` handler of `registerChainRoutes`: the
reserved reset target rolls back the whole chain; otherwise the target entry
is looked up and validated, entries after it are marked rolled back, their
artifacts cleaned (best effort) and the marked entries deleted. -/
def rollbackRoute (stageFails deployFails : String → Bool)
    (tasks : List PersistedTaskEntry) (u : String) (target_session_id : String) :
    RollbackRouteOutcome :=
  if target_session_id = RESET_TO_ORIGINAL then
    let chain := getUserChain tasks u
    let allSessionIds := chain.map (·.session_id)
    let tasks1 := (rollbackToPosition tasks u (-1)).1
    let r := cleanupSessions stageFails deployFails allSessionIds
    let tasks2 := (deleteRolledBackEntries tasks1 u).1
    ⟨⟨true, allSessionIds, none, none⟩, tasks2, r.1, r.2.1, r.2.2⟩
  else
    match getTaskBySessionId tasks target_session_id with
    | none =>
      ⟨⟨false, [], none, some "Target session not found or access denied"⟩,
        tasks, [], [], false⟩
    | some targetEntry =>
      if targetEntry.appmorph_user_id ≠ u then
        ⟨⟨false, [], none, some "Target session not found or access denied"⟩,
          tasks, [], [], false⟩
      else if targetEntry.status ≠ EntryStatus.active then
        ⟨⟨false, [], none, some "Target session is not active"⟩,
          tasks, [], [], false⟩
      else
        let res := rollbackToPosition tasks u (targetEntry.chain_position : Int)
        let rolledBackIds := res.2.map (·.session_id)
        let r := cleanupSessions stageFails deployFails rolledBackIds
        let tasks2 := (deleteRolledBackEntries res.1 u).1
        ⟨⟨true, rolledBackIds, some target_session_id, none⟩,
          tasks2, r.1, r.2.1, r.2.2⟩

/-- C3 (amended: the reserved reset target is excluded): a rollback request
whose target session id is unknown, belongs to another user, or names a
non-active entry gets `success = false`, an error message, an empty
removed-sessions list, no ledger mutation and no artifact cleanup. -/
theorem rollbackRoute_invalid_target (sf df : String → Bool)
    (tasks : List PersistedTaskEntry) (u target : String)
    (hsent : target ≠ RESET_TO_ORIGINAL)
    (hbad : (∀ e ∈ tasks, e.session_id ≠ target)
      ∨ ∃ e, getTaskBySessionId tasks target = some e
          ∧ (e.appmorph_user_id ≠ u ∨ e.status ≠ EntryStatus.active)) :
    (rollbackRoute sf df tasks u target).response.success = false
    ∧ (rollbackRoute sf df tasks u target).response.removed_sessions = []
    ∧ (∃ msg, (rollbackRoute sf df tasks u target).response.error = some msg)
    ∧ (rollbackRoute sf df tasks u target).tasks = tasks
    ∧ (rollbackRoute sf df tasks u target).cleanedStages = []
    ∧ (rollbackRoute sf df tasks u target).cleanedDeploys = [] := by
  unfold rollbackRoute
  rw [if_neg hsent]
  rcases hbad with hnone | ⟨e, hfind, hbad2⟩
  · have hf : getTaskBySessionId tasks target = none := by
      unfold getTaskBySessionId
      rw [List.find?_eq_none]
      intro x hx
      simp [hnone x hx]
    rw [hf]
    exact ⟨rfl, rfl, ⟨_, rfl⟩, rfl, rfl, rfl⟩
  · rw [hfind]
    dsimp only
    by_cases hu : e.appmorph_user_id = u
    · have hne : ¬ (e.appmorph_user_id ≠ u) := by simpa using hu
      rw [if_neg hne]
      have hst : e.status ≠ EntryStatus.active := by
        rcases hbad2 with h | h
        · exact absurd hu h
        · exact h
      rw [if_pos hst]
      exact ⟨rfl, rfl, ⟨_, rfl⟩, rfl, rfl, rfl⟩
    · rw [if_pos hu]
      exact ⟨rfl, rfl, ⟨_, rfl⟩, rfl, rfl, rfl⟩

/-- Closed instantiation of `rollbackRoute_invalid_target`: an unknown target
session id on the demo ledger. -/
theorem rollbackRoute_invalid_target_witness :
    (rollbackRoute (fun _ => false) (fun _ => false) demoTasks "u" "zz").response.success = false
    ∧ (rollbackRoute (fun _ => false) (fun _ => false) demoTasks "u" "zz").response.removed_sessions = []
    ∧ (∃ msg, (rollbackRoute (fun _ => false) (fun _ => false) demoTasks "u" "zz").response.error = some msg)
    ∧ (rollbackRoute (fun _ => false) (fun _ => false) demoTasks "u" "zz").tasks = demoTasks
    ∧ (rollbackRoute (fun _ => false) (fun _ => false) demoTasks "u" "zz").cleanedStages = []
    ∧ (rollbackRoute (fun _ => false) (fun _ => false) demoTasks "u" "zz").cleanedDeploys = [] :=
  rollbackRoute_invalid_target (fun _ => false) (fun _ => false) demoTasks "u" "zz"
    (by decide) (Or.inl (by decide))

/-- C3 counterexample to the claim as stated: the reserved string
`'__reset_to_original__'` is itself an unknown target session id (no demo
entry carries it), yet the route answers `success = true` and empties the
user's ledger instead of failing without mutation. -/
theorem rollbackRoute_sentinel_counterexample :
    (∀ e ∈ demoTasks, e.session_id ≠ RESET_TO_ORIGINAL)
    ∧ (rollbackRoute (fun _ => false) (fun _ => false) demoTasks "u"
        RESET_TO_ORIGINAL).response.success = true
    ∧ (rollbackRoute (fun _ => false) (fun _ => false) demoTasks "u"
        RESET_TO_ORIGINAL).tasks = [] := by
  refine ⟨by decide, by decide, by decide⟩

/-- Demo entry at position 2, chained after `demoEntry1`. -/
def demoEntry2 : PersistedTaskEntry :=
  ⟨"s2", "u", "p2", 30, 2, some "s1", .active⟩

/-- Demo ledger with three active entries for user `"u"`. -/
def demoTasks3 : List PersistedTaskEntry := [demoEntry0, demoEntry1, demoEntry2]

/-- C8 (amended): a cleanup error during the rollback loop is caught by the
single `catch` around the loop, so the *remaining* sessions are skipped —
whether the throwing call is the session's stage cleanup (nothing of that
session is cleaned) or its deploy cleanup (its stage was already cleaned,
its deploy is not) — but the ledger mutation and the HTTP reply are
completely independent of cleanup failures; with no failures every
rolled-back session is cleaned. -/
theorem rollbackRoute_cleanup_behavior (sf df : String → Bool)
    (tasks : List PersistedTaskEntry) (u target : String) :
    ((rollbackRoute sf df tasks u target).response
        = (rollbackRoute (fun _ => false) (fun _ => false) tasks u target).response
      ∧ (rollbackRoute sf df tasks u target).tasks
        = (rollbackRoute (fun _ => false) (fun _ => false) tasks u target).tasks)
    ∧ (∀ (pre post : List String) (x : String),
        (∀ s ∈ pre, sf s = false ∧ df s = false) → sf x = true →
        cleanupSessions sf df (pre ++ x :: post) = (pre, pre, true))
    ∧ (∀ (pre post : List String) (x : String),
        (∀ s ∈ pre, sf s = false ∧ df s = false) → sf x = false → df x = true →
        cleanupSessions sf df (pre ++ x :: post) = (pre ++ [x], pre, true))
    ∧ (∀ ids : List String, (∀ s ∈ ids, sf s = false ∧ df s = false) →
        cleanupSessions sf df ids = (ids, ids, false)) := by
  refine ⟨?_, ?_, ?_, ?_⟩
  · unfold rollbackRoute
    by_cases hs : target = RESET_TO_ORIGINAL
    · rw [if_pos hs, if_pos hs]
      exact ⟨rfl, rfl⟩
    · rw [if_neg hs, if_neg hs]
      cases hfind : getTaskBySessionId tasks target with
      | none => exact ⟨rfl, rfl⟩
      | some e =>
        dsimp only
        by_cases hu : e.appmorph_user_id ≠ u
        · rw [if_pos hu, if_pos hu]
          exact ⟨rfl, rfl⟩
        · rw [if_neg hu, if_neg hu]
          by_cases hst : e.status ≠ EntryStatus.active
          · rw [if_pos hst, if_pos hst]
            exact ⟨rfl, rfl⟩
          · rw [if_neg hst, if_neg hst]
            exact ⟨rfl, rfl⟩
  · intro pre post x hpre hx
    induction pre with
    | nil => simp [cleanupSessions, hx]
    | cons a as ih =>
      have ha := hpre a (by simp)
      have hrest : ∀ s ∈ as, sf s = false ∧ df s = false := fun s hs =>
        hpre s (by simp [hs])
      simp [cleanupSessions, ha.1, ha.2, ih hrest]
  · intro pre post x hpre hsf hdf
    induction pre with
    | nil => simp [cleanupSessions, hsf, hdf]
    | cons a as ih =>
      have ha := hpre a (by simp)
      have hrest : ∀ s ∈ as, sf s = false ∧ df s = false := fun s hs =>
        hpre s (by simp [hs])
      simp [cleanupSessions, ha.1, ha.2, ih hrest]
  · intro ids hids
    induction ids with
    | nil => rfl
    | cons a as ih =>
      have ha := hids a (by simp)
      have hrest : ∀ s ∈ as, sf s = false ∧ df s = false := fun s hs =>
        hids s (by simp [hs])
      simp [cleanupSessions, ha.1, ha.2, ih hrest]

/-- Closed instantiation of `rollbackRoute_cleanup_behavior`: a session whose
stage cleanup throws aborts the loop right there, and so does one whose
deploy cleanup throws (after its stage was cleaned). -/
theorem rollbackRoute_cleanup_behavior_witness :
    cleanupSessions (fun s => s == "s1") (fun _ => false) (["s0"] ++ "s1" :: ["s2"])
      = (["s0"], ["s0"], true)
    ∧ cleanupSessions (fun _ => false) (fun s => s == "s1") (["s0"] ++ "s1" :: ["s2"])
      = (["s0"] ++ ["s1"], ["s0"], true) :=
  ⟨(rollbackRoute_cleanup_behavior (fun s => s == "s1") (fun _ => false)
      demoTasks3 "u" "s0").2.1 ["s0"] ["s2"] "s1" (by decide) (by decide),
   (rollbackRoute_cleanup_behavior (fun _ => false) (fun s => s == "s1")
      demoTasks3 "u" "s0").2.2.1 ["s0"] ["s2"] "s1" (by decide) (by decide) (by decide)⟩

/-- C8 counterexample to the claim as stated: rolling `demoTasks3` back to
`"s0"` rolls back `"s1"` and `"s2"`; cleanup of `"s1"` throws, and although
`"s2"`'s own cleanup would succeed it is never attempted — yet the ledger
mutation still completes. -/
theorem rollbackRoute_cleanup_abort_counterexample :
    ("s2" ∈ (rollbackRoute (fun s => s == "s1") (fun _ => false)
        demoTasks3 "u" "s0").response.removed_sessions)
    ∧ (fun s => s == "s1") "s2" = false
    ∧ (fun _ : String => false) "s2" = false
    ∧ "s2" ∉ (rollbackRoute (fun s => s == "s1") (fun _ => false)
        demoTasks3 "u" "s0").cleanedStages
    ∧ "s2" ∉ (rollbackRoute (fun s => s == "s1") (fun _ => false)
        demoTasks3 "u" "s0").cleanedDeploys
    ∧ (rollbackRoute (fun s => s == "s1") (fun _ => false)
        demoTasks3 "u" "s0").tasks = [demoEntry0] := by
  refine ⟨by decide, by decide, by decide, by decide, by decide, by decide⟩

/-- A veto returned by a before-hook (`VetoResult`): `vetoed` is always the
literal `true` in the source type, so only the reason is carried. -/
structure VetoResult where
  reason : String
deriving DecidableEq, Repr

/-- Context handed to task-level hooks; only the fields the hook-running
logic itself inspects are relevant, so the context is abstract data. -/
structure TaskContext where
  taskId : String
  prompt : String
deriving DecidableEq, Repr

/-- One loaded plugin as seen by `HookRunner.beforeAgentRun`: an optional
`beforeAgentRun` callback which returns `void` (`none`) or a `VetoResult`
(`some`).  Other hooks are irrelevant to the claim and omitted. -/
structure AppmorphPlugin where
  name : String
  beforeAgentRun : Option (TaskContext → Option VetoResult)

/-- `HookRunner.beforeAgentRun(ctx)`: iterate over the plugins in order,
skip plugins without the hook, call the hook otherwise, and return the first
`VetoResult`; return `null` when no plugin vetoes. -/
def runBeforeAgentRun : List AppmorphPlugin → TaskContext → Option VetoResult
  | [], _ => none
  | p :: rest, ctx =>
    match p.beforeAgentRun with
    | none => runBeforeAgentRun rest ctx
    | some hook =>
      match hook ctx with
      | some veto => some veto
      | none => runBeforeAgentRun rest ctx

/-- A plugin does not veto `ctx`: it has no `beforeAgentRun` hook or the hook
returns no veto. -/
def noVeto (p : AppmorphPlugin) (ctx : TaskContext) : Prop :=
  ∀ f, p.beforeAgentRun = some f → f ctx = none

/-- C5: the before-hook runs plugins in list order and short-circuits at the
first veto: if no plugin before `v` vetoes and `v`'s hook returns `veto`,
the hook run returns exactly that veto whatever plugins follow `v` (they are
never consulted); and if no plugin vetoes at all the run returns `none`. -/
theorem beforeAgentRun_spec (ctx : TaskContext) :
    (∀ (pre rest : List AppmorphPlugin) (v : AppmorphPlugin)
        (f : TaskContext → Option VetoResult) (veto : VetoResult),
        (∀ p ∈ pre, noVeto p ctx) → v.beforeAgentRun = some f → f ctx = some veto →
        runBeforeAgentRun (pre ++ v :: rest) ctx = some veto)
    ∧ (∀ plugins : List AppmorphPlugin,
        (∀ p ∈ plugins, noVeto p ctx) → runBeforeAgentRun plugins ctx = none) := by
  constructor
  · intro pre rest v f veto hpre hv hf
    induction pre with
    | nil =>
      simp only [List.nil_append, runBeforeAgentRun, hv, hf]
    | cons p ps ih =>
      have hp : noVeto p ctx := hpre p (by simp)
      have hps : ∀ q ∈ ps, noVeto q ctx := fun q hq => hpre q (by simp [hq])
      rw [List.cons_append]
      cases hpb : p.beforeAgentRun with
      | none =>
        simp only [runBeforeAgentRun, hpb]
        exact ih hps
      | some g =>
        have hg : g ctx = none := hp g hpb
        simp only [runBeforeAgentRun, hpb, hg]
        exact ih hps
  · intro plugins hall
    induction plugins with
    | nil => rfl
    | cons p ps ih =>
      have hp : noVeto p ctx := hall p (by simp)
      have hps : ∀ q ∈ ps, noVeto q ctx := fun q hq => hall q (by simp [hq])
      cases hpb : p.beforeAgentRun with
      | none =>
        simp only [runBeforeAgentRun, hpb]
        exact ih hps
      | some g =>
        have hg : g ctx = none := hp g hpb
        simp only [runBeforeAgentRun, hpb, hg]
        exact ih hps

/-- Demo hook context. -/
def demoCtx : TaskContext := ⟨"t1", "add a button"⟩

/-- A plugin with no before-hook. -/
def pluginNoHook : AppmorphPlugin := ⟨"noop", none⟩

/-- A plugin whose before-hook vetoes with a fixed reason. -/
def pluginVeto : AppmorphPlugin := ⟨"guard", some (fun _ => some ⟨"blocked"⟩)⟩

/-- A plugin whose before-hook is present but does not veto. -/
def pluginPass : AppmorphPlugin := ⟨"pass", some (fun _ => none)⟩

/-- Closed instantiation of `beforeAgentRun_spec`: with plugins
`[pass, guard, noop]` the run returns the guard's veto. -/
theorem beforeAgentRun_spec_witness :
    runBeforeAgentRun ([pluginPass] ++ pluginVeto :: [pluginNoHook]) demoCtx
      = some ⟨"blocked"⟩ :=
  (beforeAgentRun_spec demoCtx).1 [pluginPass] [pluginNoHook] pluginVeto
    (fun _ => some ⟨"blocked"⟩) ⟨"blocked"⟩
    (by
      intro p hp f hf
      simp only [List.mem_singleton] at hp
      subst hp
      simp only [pluginPass, Option.some.injEq] at hf
      subst hf
      rfl)
    rfl rfl

/-- `StageInfo`: the isolated working copy created for a session. -/
structure StageInfo where
  sessionId : String
  stagePath : String
deriving DecidableEq, Repr

/-- `DeployInfo`: the built artifact of a session. -/
structure DeployInfo where
  sessionId : String
  deployPath : String
  deployUrl : String
deriving DecidableEq, Repr

/-- `BuildResult` as returned by `FileSystemBuildManager.executeBuild`. -/
structure BuildResult where
  success : Bool
  output : Option String
  error : Option String
deriving DecidableEq, Repr

/-- The agent's terminal value before the executor attaches stage/deploy
info (`success`, `summary`, `filesChanged`). -/
structure AgentResultBase where
  success : Bool
  summary : String
  filesChanged : List String
deriving DecidableEq, Repr

/-- The executor's final `AgentResult` with `stageInfo`/`deployInfo`
attached. -/
structure ExecResult where
  success : Bool
  summary : String
  filesChanged : List String
  stageInfo : Option StageInfo
  deployInfo : Option DeployInfo
deriving DecidableEq, Repr

/-- The returned result plus the contents of the progress events emitted
along the way. -/
structure ExecOutcome where
  result : ExecResult
  progressLog : List String
deriving DecidableEq, Repr

/-- JavaScript template interpolation of a possibly-undefined value
(an absent `error` field prints as `undefined`). -/
def jsShow : Option String → String
  | none => "undefined"
  | some s => s

/-- `TaskExecutorImpl.execute(task)` of the chained executor, with the
external collaborators as explicit inputs: `stage` is the outcome of
`createChainedStage` (`Except` = throw), `agentProgress` the contents of the
progress events the agent yields, `agentOutcome` the agent's terminal value
(`.error` = generator throw, `.ok none` = generator finished without a
result), `build` the outcome of `executeBuild` (`.error` = throw) and
`deployInfoFor` the deploy manager's `getDeployInfo`. -/
def executeTask (taskId : String) (stage : Except String StageInfo)
    (agentProgress : List String) (agentOutcome : Except String (Option AgentResultBase))
    (build : Except String BuildResult) (deployInfoFor : String → DeployInfo) :
    ExecOutcome :=
  match stage with
  | .error e =>
    ⟨⟨false, "Failed to create staging directory: " ++ e, [], none, none⟩, []⟩
  | .ok si =>
    let log1 := ("Stage created at: " ++ si.stagePath) :: agentProgress
    match agentOutcome with
    | .error e => ⟨⟨false, e, [], some si, none⟩, log1⟩
    | .ok ores =>
      let base := ores.getD ⟨false, "Agent did not return a result", []⟩
      if base.success then
        let log2 := log1 ++ ["Starting build..."]
        match build with
        | .error e =>
          ⟨⟨base.success, base.summary, base.filesChanged, some si, none⟩,
            log2 ++ ["Build error: " ++ e]⟩
        | .ok br =>
          if br.success then
            let di := deployInfoFor taskId
            ⟨⟨base.success, base.summary, base.filesChanged, some si, some di⟩,
              log2 ++ ["Build completed. Deploy URL: " ++ di.deployUrl]⟩
          else
            ⟨⟨base.success, base.summary, base.filesChanged, some si, none⟩,
              log2 ++ ["Build failed: " ++ jsShow br.error]⟩
      else
        ⟨⟨base.success, base.summary, base.filesChanged, some si, none⟩, log1⟩

/-- C4: when the stage step succeeds and the agent returns a successful
result, a failing build — whether `executeBuild` returns `success = false`
or throws — leaves the task result successful (`success = true` as set by
the agent), attaches no `DeployInfo`, and reports the failure through a
progress event. -/
theorem buildFailure_nonfatal (taskId : String) (si : StageInfo)
    (agentProgress : List String) (base : AgentResultBase)
    (build : Except String BuildResult) (deployInfoFor : String → DeployInfo)
    (hbase : base.success = true) :
    (∀ e, build = .error e →
      (executeTask taskId (.ok si) agentProgress (.ok (some base)) build
          deployInfoFor).result.success = true
      ∧ (executeTask taskId (.ok si) agentProgress (.ok (some base)) build
          deployInfoFor).result.deployInfo = none
      ∧ ("Build error: " ++ e) ∈ (executeTask taskId (.ok si) agentProgress
          (.ok (some base)) build deployInfoFor).progressLog)
    ∧ (∀ br, build = .ok br → br.success = false →
      (executeTask taskId (.ok si) agentProgress (.ok (some base)) build
          deployInfoFor).result.success = true
      ∧ (executeTask taskId (.ok si) agentProgress (.ok (some base)) build
          deployInfoFor).result.deployInfo = none
      ∧ ("Build failed: " ++ jsShow br.error) ∈ (executeTask taskId (.ok si)
          agentProgress (.ok (some base)) build deployInfoFor).progressLog) := by
  constructor
  · intro e he
    subst he
    simp [executeTask, hbase]
  · intro br hbr hfail
    subst hbr
    simp [executeTask, hbase, hfail]

/-- Closed instantiation of `buildFailure_nonfatal`: a failing build on a
successful agent run keeps `success = true` and no deploy info. -/
theorem buildFailure_nonfatal_witness :
    (executeTask "t1" (.ok ⟨"t1", "stage/t1"⟩) ["thinking"]
        (.ok (some ⟨true, "done", ["a.ts"]⟩))
        (.ok ⟨false, none, some "exit 1"⟩) (fun s => ⟨s, "deploy/t1", "http://x/t1"⟩)).result.success = true
    ∧ (executeTask "t1" (.ok ⟨"t1", "stage/t1"⟩) ["thinking"]
        (.ok (some ⟨true, "done", ["a.ts"]⟩))
        (.ok ⟨false, none, some "exit 1"⟩) (fun s => ⟨s, "deploy/t1", "http://x/t1"⟩)).result.deployInfo = none
    ∧ ("Build failed: " ++ jsShow (some "exit 1")) ∈ (executeTask "t1"
        (.ok ⟨"t1", "stage/t1"⟩) ["thinking"]
        (.ok (some ⟨true, "done", ["a.ts"]⟩))
        (.ok ⟨false, none, some "exit 1"⟩) (fun s => ⟨s, "deploy/t1", "http://x/t1"⟩)).progressLog :=
  (buildFailure_nonfatal "t1" ⟨"t1", "stage/t1"⟩ ["thinking"] ⟨true, "done", ["a.ts"]⟩
    (.ok ⟨false, none, some "exit 1"⟩) (fun s => ⟨s, "deploy/t1", "http://x/t1"⟩)
    rfl).2 ⟨false, none, some "exit 1"⟩ rfl rfl

/-- Model of JavaScript `String.prototype.replace` with a string pattern and
a plain replacement: only the FIRST occurrence of the pattern is replaced
(special `$`-patterns in the replacement are not modelled — deploy paths are
plain paths). -/
def jsReplaceFirst (pat repl : List Char) : List Char → List Char
  | [] => if pat.isEmpty then repl else []
  | c :: rest =>
    if pat.isPrefixOf (c :: rest) then repl ++ (c :: rest).drop pat.length
    else c :: jsReplaceFirst pat repl rest

/-- Whether `pat` occurs as a contiguous substring. -/
def hasInfix (pat : List Char) : List Char → Bool
  | [] => pat.isEmpty
  | c :: rest => pat.isPrefixOf (c :: rest) || hasInfix pat rest

/-- `AppmorphProjectConfig`, restricted to the fields the build manager
reads. -/
structure AppmorphProjectConfig where
  source_location : String
  build_command : String
  deploy_root : String
deriving DecidableEq, Repr

/-- `FileSystemBuildManager.getDeployPath(sessionId)`:
`resolve(deploy_root, sessionId)`; for a plain session id under an absolute
root, `resolve` is the slash join, which is how it is modelled. -/
def getDeployPath (config : AppmorphProjectConfig) (sessionId : String) : String :=
  config.deploy_root ++ "/" ++ sessionId

/-- The command string `executeBuild` hands to `execSync`:
`config.build_command.replace('<dist>', deployPath)`. -/
def buildCommandFor (config : AppmorphProjectConfig) (sessionId : String) : String :=
  ⟨jsReplaceFirst "<dist>".data (getDeployPath config sessionId).data
      config.build_command.data⟩

/-- Any list containing `pat` as a marked infix satisfies `hasInfix`. -/
theorem hasInfix_append_self (pat : List Char) (a b : List Char) :
    hasInfix pat (a ++ pat ++ b) = true := by
  induction a with
  | nil =>
    cases pat with
    | nil =>
      cases b with
      | nil => rfl
      | cons c bs => simp [hasInfix]
    | cons c ps =>
      have hpre : (c :: ps).isPrefixOf ((c :: ps) ++ b) = true := by
        rw [List.isPrefixOf_iff_prefix]
        exact List.prefix_append _ _
      simp [hasInfix, hpre]
  | cons x a2 ih =>
    have ih2 : hasInfix pat ((a2.append pat).append b) = true := ih
    simp only [List.cons_append, hasInfix, ih2, Bool.or_true]

/-- `jsReplaceFirst` replaces exactly the first occurrence: the input splits
as `a ++ pat ++ b` with no occurrence of `pat` starting inside `a`, and the
output is `a ++ repl ++ b`. -/
theorem jsReplaceFirst_decomp (pat repl : List Char) :
    ∀ l : List Char, hasInfix pat l = true →
    ∃ a b, l = a ++ pat ++ b
      ∧ jsReplaceFirst pat repl l = a ++ repl ++ b
      ∧ ∀ a1 a2, a = a1 ++ a2 → a2 ≠ [] →
          pat.isPrefixOf (a2 ++ pat ++ b) = false := by
  intro l
  induction l with
  | nil =>
    intro h
    simp only [hasInfix] at h
    have hp : pat = [] := by simpa using h
    subst hp
    refine ⟨[], [], rfl, by simp [jsReplaceFirst], ?_⟩
    intro a1 a2 ha hne
    exact absurd (List.append_eq_nil.mp ha.symm).2 hne
  | cons c rest ih =>
    intro h
    by_cases hpre : pat.isPrefixOf (c :: rest) = true
    · obtain ⟨t, ht⟩ : pat <+: (c :: rest) := List.isPrefixOf_iff_prefix.mp hpre
      refine ⟨[], t, by simpa using ht.symm, ?_, ?_⟩
      · have hd : (c :: rest).drop pat.length = t := by
          rw [← ht]
          exact List.drop_left pat t
        simp [jsReplaceFirst, hpre, hd]
      · intro a1 a2 ha hne
        exact absurd (List.append_eq_nil.mp ha.symm).2 hne
    · have hrest : hasInfix pat rest = true := by
        simp only [hasInfix, Bool.or_eq_true] at h
        rcases h with h | h
        · exact absurd h hpre
        · exact h
      obtain ⟨a, b, hab, hres, hfirst⟩ := ih hrest
      refine ⟨c :: a, b, by simp [hab], ?_, ?_⟩
      · simp [jsReplaceFirst, hpre, hres]
      · intro a1 a2 ha hne
        cases a1 with
        | nil =>
          have ha2 : a2 = c :: a := by simpa using ha.symm
          subst ha2
          have hcr : (c :: a) ++ pat ++ b = c :: rest := by
            rw [hab]
            simp
          rw [hcr]
          cases hb : pat.isPrefixOf (c :: rest)
          · rfl
          · exact absurd hb hpre
        | cons x a1t =>
          have ha2 : a = a1t ++ a2 := by
            have := congrArg List.tail ha
            simpa using this
          exact hfirst a1t a2 ha2 hne

/-- C6 (amended): `executeBuild` substitutes the FIRST occurrence of the
`<dist>` placeholder with the absolute deploy path `deployRoot/S`: the
template splits as `a ++ "<dist>" ++ b` with no occurrence starting inside
`a`, the executed command is `a ++ deployPath ++ b` and therefore contains
the deploy path; occurrences of the placeholder after the first remain. -/
theorem buildCommand_substitution (config : AppmorphProjectConfig) (sessionId : String)
    (htempl : hasInfix "<dist>".data config.build_command.data = true) :
    ∃ a b, config.build_command.data = a ++ "<dist>".data ++ b
      ∧ (buildCommandFor config sessionId).data
          = a ++ (getDeployPath config sessionId).data ++ b
      ∧ hasInfix (getDeployPath config sessionId).data
          (buildCommandFor config sessionId).data = true
      ∧ ∀ a1 a2, a = a1 ++ a2 → a2 ≠ [] →
          ("<dist>".data).isPrefixOf (a2 ++ "<dist>".data ++ b) = false := by
  obtain ⟨a, b, h1, h2, h3⟩ := jsReplaceFirst_decomp "<dist>".data
    (getDeployPath config sessionId).data config.build_command.data htempl
  refine ⟨a, b, h1, h2, ?_, h3⟩
  rw [show (buildCommandFor config sessionId).data
      = a ++ (getDeployPath config sessionId).data ++ b from h2]
  exact hasInfix_append_self _ a b

/-- A demo build configuration whose command template mentions the
placeholder twice. -/
def demoConfig : AppmorphProjectConfig :=
  ⟨"/src/app", "build --out <dist> && copy <dist>", "/deploy"⟩

/-- Closed instantiation of `buildCommand_substitution` on `demoConfig`. -/
theorem buildCommand_substitution_witness :
    ∃ a b, demoConfig.build_command.data = a ++ "<dist>".data ++ b
      ∧ (buildCommandFor demoConfig "s1").data
          = a ++ (getDeployPath demoConfig "s1").data ++ b
      ∧ hasInfix (getDeployPath demoConfig "s1").data
          (buildCommandFor demoConfig "s1").data = true
      ∧ ∀ a1 a2, a = a1 ++ a2 → a2 ≠ [] →
          ("<dist>".data).isPrefixOf (a2 ++ "<dist>".data ++ b) = false :=
  buildCommand_substitution demoConfig "s1" (by decide)

/-- C6 counterexample to the claim as stated: with a template containing the
placeholder twice, the executed command still contains `<dist>` — the zero-
occurrences part of the claim fails. -/
theorem buildCommand_counterexample :
    hasInfix "<dist>".data demoConfig.build_command.data = true
    ∧ buildCommandFor demoConfig "s1" = "build --out /deploy/s1 && copy <dist>"
    ∧ hasInfix "<dist>".data (buildCommandFor demoConfig "s1").data = true := by
  refine ⟨by decide, by decide, by decide⟩

/-- A persisted ledger row as read from disk, where the chain fields may be
absent (`undefined`): `status`, `chain_position` and `parent_session_id` are
`Option`s around their migrated types (`parent_session_id` itself is
nullable, hence the nested `Option`). -/
structure RawTaskEntry where
  session_id : String
  appmorph_user_id : String
  prompt : String
  created_at : Nat
  status : Option EntryStatus
  chain_position : Option Nat
  parent_session_id : Option (Option String)
deriving DecidableEq, Repr

/-- The body of the migration loop of `TaskPersistence.loadData` for the
entry at index `i` of its user's sorted group: each chain field that is
`undefined` is backfilled (`status := 'active'`, `chain_position := i`,
`parent_session_id := parent`), fields already present are kept. -/
def fillEntry (t : RawTaskEntry) (i : Nat) (parent : Option String) : RawTaskEntry :=
  { t with
    status := some (t.status.getD .active),
    chain_position := some (t.chain_position.getD i),
    parent_session_id := some (t.parent_session_id.getD parent) }

/-- The `for (let i = 0; ...)` loop of the migration over one user's sorted
tasks, carried out on (ledger index, entry) pairs: `i` is the running chain
position and `parent` the previous entry's `session_id` (`null` at `i = 0`). -/
def assignPositions : Nat → Option String → List (Nat × RawTaskEntry) →
    List (Nat × RawTaskEntry)
  | _, _, [] => []
  | i, parent, x :: rest =>
    (x.1, fillEntry x.2 i parent) :: assignPositions (i + 1) (some x.2.session_id) rest

/-- Pair each entry with its ledger index, starting at `n`. -/
def indexFrom : Nat → List RawTaskEntry → List (Nat × RawTaskEntry)
  | _, [] => []
  | n, x :: xs => (n, x) :: indexFrom (n + 1) xs

/-- The migration's sort comparator
`(a, b) => a.created_at - b.created_at` (ascending; `Array.prototype.sort`
is stable, so equal timestamps keep ledger order). -/
def ltCreated (a b : Nat × RawTaskEntry) : Bool :=
  decide (a.2.created_at < b.2.created_at)

/-- One user's group in the migration: that user's indexed entries in ledger
order, stably sorted by `created_at`. -/
def sortedGroup (tasks : List RawTaskEntry) (u : String) : List (Nat × RawTaskEntry) :=
  stableSortBy ltCreated
    ((indexFrom 0 tasks).filter fun x => decide (x.2.appmorph_user_id = u))

/-- All migration assignments: for each user (grouping by `Map` keyed on
`appmorph_user_id`), the backfilled entries keyed by their ledger index. -/
def migrateAssignments (tasks : List RawTaskEntry) : List (Nat × RawTaskEntry) :=
  ((tasks.map (·.appmorph_user_id)).dedup).flatMap fun u =>
    assignPositions 0 none (sortedGroup tasks u)

/-- The migration of `TaskPersistence.loadData`: every ledger entry is
replaced by its backfilled version, in place (ledger order unchanged). -/
def migrate (tasks : List RawTaskEntry) : List RawTaskEntry :=
  (indexFrom 0 tasks).map fun x =>
    match (migrateAssignments tasks).find? (fun a => decide (a.1 = x.1)) with
    | some a => a.2
    | none => x.2

/-- Length of an indexed list. -/
theorem indexFrom_length (l : List RawTaskEntry) : ∀ n, (indexFrom n l).length = l.length := by
  induction l with
  | nil => intro n; rfl
  | cons x xs ih => intro n; simp [indexFrom, ih]

/-- Elements of an indexed list. -/
theorem indexFrom_getElem (l : List RawTaskEntry) :
    ∀ (n i : Nat), (indexFrom n l)[i]? = l[i]?.map (fun t => (n + i, t)) := by
  induction l with
  | nil => intro n i; simp [indexFrom]
  | cons x xs ih =>
    intro n i
    cases i with
    | zero => simp [indexFrom]
    | succ j =>
      simp only [indexFrom, List.getElem?_cons_succ, ih (n + 1) j]
      have : n + 1 + j = n + (j + 1) := by omega
      rw [this]

/-- Membership in an indexed list determines the entry at that index. -/
theorem indexFrom_mem (l : List RawTaskEntry) :
    ∀ (n j : Nat) (t : RawTaskEntry), (j, t) ∈ indexFrom n l →
      n ≤ j ∧ l[j - n]? = some t := by
  induction l with
  | nil => intro n j t h; cases h
  | cons x xs ih =>
    intro n j t h
    rcases List.mem_cons.mp h with heq | htail
    · injection heq with h1 h2
      subst h1
      subst h2
      exact ⟨Nat.le_refl _, by simp⟩
    · obtain ⟨hle, hget⟩ := ih (n + 1) j t htail
      refine ⟨by omega, ?_⟩
      have hj : j - n = (j - (n + 1)) + 1 := by omega
      rw [hj, List.getElem?_cons_succ]
      exact hget

/-- The keys of an indexed list are consecutive. -/
theorem indexFrom_map_fst (l : List RawTaskEntry) :
    ∀ n, (indexFrom n l).map Prod.fst = List.range' n l.length := by
  induction l with
  | nil => intro n; rfl
  | cons x xs ih =>
    intro n
    simp [indexFrom, List.range'_succ, ih]

/-- Stable insertion produces a permutation. -/
theorem insertSortedBy_perm {α : Type} (lt : α → α → Bool) (x : α) (l : List α) :
    (insertSortedBy lt x l).Perm (x :: l) := by
  induction l with
  | nil => exact List.Perm.refl _
  | cons y ys ih =>
    by_cases h : lt y x = true
    · simp only [insertSortedBy, h, if_true]
      exact (ih.cons y).trans (List.Perm.swap x y ys)
    · simp only [insertSortedBy, h]
      rw [if_neg (by simp [h])]

/-- Stable sorting produces a permutation. -/
theorem stableSortBy_perm {α : Type} (lt : α → α → Bool) (l : List α) :
    (stableSortBy lt l).Perm l := by
  induction l with
  | nil => exact List.Perm.refl _
  | cons x xs ih =>
    exact (insertSortedBy_perm lt x (stableSortBy lt xs)).trans (ih.cons x)

/-- `assignPositions` keeps the ledger-index keys. -/
theorem assignPositions_map_fst (l : List (Nat × RawTaskEntry)) :
    ∀ (n : Nat) (par : Option String),
      (assignPositions n par l).map Prod.fst = l.map Prod.fst := by
  induction l with
  | nil => intro n par; rfl
  | cons x xs ih =>
    intro n par
    simp [assignPositions, ih]

/-- Head of an `assignPositions` run. -/
theorem assignPositions_head (l : List (Nat × RawTaskEntry)) (n : Nat)
    (par : Option String) (x : Nat × RawTaskEntry) (hx : l[0]? = some x) :
    (assignPositions n par l)[0]? = some (x.1, fillEntry x.2 n par) := by
  cases l with
  | nil => simp at hx
  | cons z rest =>
    simp only [List.getElem?_cons_zero, Option.some.injEq] at hx
    subst hx
    simp [assignPositions]

/-- Successor positions of an `assignPositions` run: the entry after `x`
gets position `n + i + 1` and `x`'s session id as parent. -/
theorem assignPositions_succ (l : List (Nat × RawTaskEntry)) :
    ∀ (n i : Nat) (par : Option String) (x y : Nat × RawTaskEntry),
      l[i]? = some x → l[i + 1]? = some y →
      (assignPositions n par l)[i + 1]?
        = some (y.1, fillEntry y.2 (n + (i + 1)) (some x.2.session_id)) := by
  induction l with
  | nil => intro n i par x y hx hy; simp at hx
  | cons z rest ih =>
    intro n i par x y hx hy
    cases i with
    | zero =>
      simp only [List.getElem?_cons_zero, Option.some.injEq] at hx
      subst hx
      rw [List.getElem?_cons_succ] at hy
      simp only [assignPositions, List.getElem?_cons_succ]
      simpa using assignPositions_head rest (n + 1) _ y hy
    | succ j =>
      rw [List.getElem?_cons_succ] at hx
      rw [List.getElem?_cons_succ] at hy
      simp only [assignPositions, List.getElem?_cons_succ]
      have h2 := ih (n + 1) j (some z.2.session_id) x y hx hy
      have heq : n + 1 + (j + 1) = n + (j + 1 + 1) := by omega
      rw [heq] at h2
      exact h2

/-- In a list with duplicate-free keys, `find?` on a member's key returns
that member. -/
theorem find?_key_of_nodup (l : List (Nat × RawTaskEntry)) (j : Nat)
    (v : Nat × RawTaskEntry) (hnd : (l.map Prod.fst).Nodup) (hmem : v ∈ l)
    (hkey : v.1 = j) : l.find? (fun a => decide (a.1 = j)) = some v := by
  induction l with
  | nil => cases hmem
  | cons x rest ih =>
    rw [List.map_cons] at hnd
    have hnd2 := List.nodup_cons.mp hnd
    rcases List.mem_cons.mp hmem with heq | htail
    · subst heq
      rw [List.find?_cons_of_pos _ (by simp [hkey])]
    · have hx : x.1 ≠ j := by
        intro hx
        have hv : v.1 ∈ rest.map Prod.fst := List.mem_map_of_mem Prod.fst htail
        rw [hkey, ← hx] at hv
        exact hnd2.1 hv
      rw [List.find?_cons_of_neg _ (by simp [hx])]
      exact ih hnd2.2 htail

/-- Evaluation of `migrate` at a ledger index. -/
theorem migrate_getElem (tasks : List RawTaskEntry) (j : Nat) (t : RawTaskEntry)
    (ht : tasks[j]? = some t) :
    (migrate tasks)[j]?
      = some (match (migrateAssignments tasks).find? (fun a => decide (a.1 = j)) with
              | some a => a.2
              | none => t) := by
  unfold migrate
  rw [List.getElem?_map, indexFrom_getElem tasks 0 j, ht]
  simp

/-- The ledger-index keys of a user's sorted group are duplicate-free. -/
theorem sortedGroup_keys_nodup (tasks : List RawTaskEntry) (u : String) :
    ((sortedGroup tasks u).map Prod.fst).Nodup := by
  unfold sortedGroup
  have hperm := (stableSortBy_perm ltCreated
    ((indexFrom 0 tasks).filter fun x => decide (x.2.appmorph_user_id = u))).map Prod.fst
  rw [hperm.nodup_iff]
  have hnd : ((indexFrom 0 tasks).map Prod.fst).Nodup := by
    rw [indexFrom_map_fst]
    simp [List.nodup_range']
  exact hnd.sublist ((List.filter_sublist _).map Prod.fst)

/-- A member of a user's sorted group is that user's ledger entry at its
recorded index. -/
theorem sortedGroup_mem (tasks : List RawTaskEntry) (u : String)
    (x : Nat × RawTaskEntry) (hx : x ∈ sortedGroup tasks u) :
    tasks[x.1]? = some x.2 ∧ x.2.appmorph_user_id = u := by
  have hx2 : x ∈ (indexFrom 0 tasks).filter (fun x => decide (x.2.appmorph_user_id = u)) :=
    (stableSortBy_perm ltCreated _).mem_iff.mp hx
  obtain ⟨hmem, hdec⟩ := List.mem_filter.mp hx2
  obtain ⟨-, hget⟩ := indexFrom_mem tasks 0 x.1 x.2 hmem
  exact ⟨by simpa using hget, by simpa using hdec⟩

/-- Every assignment key of a user's group comes from a member of that
group. -/
theorem assignment_key_user (tasks : List RawTaskEntry) (u2 : String)
    (a : Nat × RawTaskEntry) (ha : a ∈ assignPositions 0 none (sortedGroup tasks u2)) :
    ∃ b ∈ sortedGroup tasks u2, b.1 = a.1 := by
  have hk : a.1 ∈ (assignPositions 0 none (sortedGroup tasks u2)).map Prod.fst :=
    List.mem_map_of_mem Prod.fst ha
  rw [assignPositions_map_fst] at hk
  obtain ⟨b, hb, hb2⟩ := List.mem_map.mp hk
  exact ⟨b, hb, hb2⟩

/-- `find?` over all migration assignments reduces to the unique owning
user's group. -/
theorem find_migrateAssignments (tasks : List RawTaskEntry) (u : String) (j : Nat)
    (v : Nat × RawTaskEntry)
    (hu : u ∈ (tasks.map (·.appmorph_user_id)).dedup)
    (hother : ∀ u2, u2 ≠ u → ∀ a ∈ assignPositions 0 none (sortedGroup tasks u2),
        a.1 ≠ j)
    (hfind : (assignPositions 0 none (sortedGroup tasks u)).find?
        (fun a => decide (a.1 = j)) = some v) :
    (migrateAssignments tasks).find? (fun a => decide (a.1 = j)) = some v := by
  unfold migrateAssignments
  generalize hus : (tasks.map (·.appmorph_user_id)).dedup = us
  rw [hus] at hu
  clear hus
  induction us with
  | nil => cases hu
  | cons w ws ih =>
    rw [List.flatMap_cons, List.find?_append]
    by_cases hw : w = u
    · subst hw
      rw [hfind]
      rfl
    · have hnone : (assignPositions 0 none (sortedGroup tasks w)).find?
          (fun a => decide (a.1 = j)) = none := by
        rw [List.find?_eq_none]
        intro a ha
        simp [hother w hw a ha]
      rw [hnone]
      have hu2 : u ∈ ws := by
        rcases List.mem_cons.mp hu with h | h
        · exact absurd h.symm hw
        · exact h
      simpa using ih hu2

/-- The migrated ledger at the index of the `i`-th group member carries that
member's assignment. -/
theorem migrate_of_assignment (tasks : List RawTaskEntry) (u : String)
    (i : Nat) (w v : Nat × RawTaskEntry)
    (hg : (sortedGroup tasks u)[i]? = some w)
    (hassign : (assignPositions 0 none (sortedGroup tasks u))[i]? = some v)
    (hkey : v.1 = w.1) :
    (migrate tasks)[w.1]? = some v.2 := by
  have hwmem : w ∈ sortedGroup tasks u := List.getElem?_mem hg
  obtain ⟨htask, huser⟩ := sortedGroup_mem tasks u w hwmem
  have hu : u ∈ (tasks.map (·.appmorph_user_id)).dedup := by
    rw [List.mem_dedup, List.mem_map]
    exact ⟨w.2, List.getElem?_mem htask, huser⟩
  have hnd : ((assignPositions 0 none (sortedGroup tasks u)).map Prod.fst).Nodup := by
    rw [assignPositions_map_fst]
    exact sortedGroup_keys_nodup tasks u
  have hvmem : v ∈ assignPositions 0 none (sortedGroup tasks u) :=
    List.getElem?_mem hassign
  have hfind := find?_key_of_nodup _ w.1 v hnd hvmem hkey
  have hother : ∀ u2, u2 ≠ u →
      ∀ a ∈ assignPositions 0 none (sortedGroup tasks u2), a.1 ≠ w.1 := by
    intro u2 hne a ha hkey2
    obtain ⟨b, hbmem, hbkey⟩ := assignment_key_user tasks u2 a ha
    obtain ⟨htask2, huser2⟩ := sortedGroup_mem tasks u2 b hbmem
    rw [hbkey, hkey2, htask] at htask2
    have hbw : w.2 = b.2 := by
      injection htask2
    exact hne (by rw [← huser2, ← hbw, huser])
  have hAll := find_migrateAssignments tasks u w.1 v hu hother hfind
  rw [migrate_getElem tasks w.1 w.2 htask, hAll]

/-- C9: load-time migration groups entries per user, sorts each group by
`created_at` (stable, ascending), and backfills the `i`-th entry with
status `active`, position `i` and the `(i-1)`-th entry's session id as
parent (`null` at `i = 0`); chain fields already present are kept
(`fillEntry`), the ledger's length and order are unchanged. -/
theorem migrate_spec (tasks : List RawTaskEntry) (u : String) :
    (migrate tasks).length = tasks.length
    ∧ (∀ x : Nat × RawTaskEntry, (sortedGroup tasks u)[0]? = some x →
        (migrate tasks)[x.1]? = some (fillEntry x.2 0 none))
    ∧ (∀ (i : Nat) (x y : Nat × RawTaskEntry),
        (sortedGroup tasks u)[i]? = some x →
        (sortedGroup tasks u)[i + 1]? = some y →
        (migrate tasks)[y.1]? = some (fillEntry y.2 (i + 1) (some x.2.session_id))) := by
  refine ⟨?_, ?_, ?_⟩
  · unfold migrate
    rw [List.length_map, indexFrom_length]
  · intro x hx
    exact migrate_of_assignment tasks u 0 x (x.1, fillEntry x.2 0 none) hx
      (assignPositions_head _ 0 none x hx) rfl
  · intro i x y hx hy
    have hassign := assignPositions_succ (sortedGroup tasks u) 0 i none x y hx hy
    rw [Nat.zero_add] at hassign
    exact migrate_of_assignment tasks u (i + 1) y
      (y.1, fillEntry y.2 (i + 1) (some x.2.session_id)) hy hassign rfl

/-- A legacy entry without chain fields, created later but listed first. -/
def rawEntry0 : RawTaskEntry := ⟨"r0", "u", "p0", 100, none, none, none⟩

/-- A legacy entry without chain fields, created earlier but listed second. -/
def rawEntry1 : RawTaskEntry := ⟨"r1", "u", "p1", 50, none, none, none⟩

/-- Closed instantiation of `migrate_spec`: after sorting by `created_at`,
`rawEntry1` comes first (position 0) and `rawEntry0` second (position 1,
parent `"r1"`). -/
theorem migrate_spec_witness :
    (migrate [rawEntry0, rawEntry1])[(0 : Nat)]?
      = some (fillEntry rawEntry0 1 (some "r1")) :=
  (migrate_spec [rawEntry0, rawEntry1] "u").2.2 0 (1, rawEntry1) (0, rawEntry0)
    (by decide) (by decide)

/-- A filesystem path, as a list of segments (session ids and directory or
file names are single segments, so `join(a, b)` is list append). -/
abbrev FsPath := List String

/-- Contents of a file in the staging model: either opaque text or a parsed
dependency manifest (`package.json` with its `name`, `dependencies` and
`devDependencies`); a text file stands for one `JSON.parse` rejects. -/
inductive FileData where
  | text (s : String)
  | manifest (pkgName : String) (dependencies devDependencies : List (String × String))
deriving DecidableEq, Repr

/-- The filesystem state threaded through the staging manager: files keyed
by path (first match wins, as reads do) and the directories known to
`existsSync`. -/
structure FSState where
  files : List (FsPath × FileData)
  dirs : List FsPath
deriving DecidableEq, Repr

/-- `readFileSync` (as `Option`): the file stored at `p`. -/
def lookupFile (fs : FSState) (p : FsPath) : Option FileData :=
  (fs.files.find? fun f => decide (f.1 = p)).map (·.2)

/-- `existsSync` on a directory path. -/
def dirExists (fs : FSState) (p : FsPath) : Bool :=
  decide (p ∈ fs.dirs)

/-- `rmSync(p, { recursive: true, force: true })`: removes the tree rooted
at `p`. -/
def removeTree (fs : FSState) (p : FsPath) : FSState :=
  { files := fs.files.filter fun f => !decide (p <+: f.1),
    dirs := fs.dirs.filter fun d => !decide (p <+: d) }

/-- The directory names `copyFiltered` skips
(`node_modules`, `.git`, `dist`, `.next`, `.turbo`). -/
def excludeDirs : List String := ["node_modules", ".git", "dist", ".next", ".turbo"]

/-- A relative file path survives the filtered copy iff none of its
directory segments (all but the last segment) is excluded. -/
def relOk (rel : FsPath) : Bool := decide (∀ seg ∈ rel.dropLast, seg ∉ excludeDirs)

/-- Split `p` into `dir ++ rel` (with nonempty `rel`) when `p` lies strictly
under `dir`. -/
def stripDir (dir p : FsPath) : Option FsPath :=
  if dir <+: p ∧ dir.length < p.length then some (p.drop dir.length) else none

/-- One file of the filtered copy: a file strictly under `src` whose
relative path has no excluded directory segment is re-rooted at `dest`. -/
def copyEntry (src dest : FsPath) (f : FsPath × FileData) :
    Option (FsPath × FileData) :=
  match stripDir src f.1 with
  | some rel => if relOk rel then some (dest ++ rel, f.2) else none
  | none => none

/-- The files `copyFiltered(src, dest)` produces, one per surviving source
file. -/
def copyList (src dest : FsPath) (files : List (FsPath × FileData)) :
    List (FsPath × FileData) :=
  files.filterMap (copyEntry src dest)

/-- `copyFiltered(source, destination)` of the staging manager. -/
def copyFiltered (fs : FSState) (src dest : FsPath) : FSState :=
  { fs with files := copyList src dest fs.files ++ fs.files }

/-- Render a segment path as a slash-joined string (for `file:` specs). -/
def pathStr (p : FsPath) : String := String.intercalate "/" p

/-- `packageName.replace('@appmorph/', '')` (first occurrence, as in the
source). -/
def stripScope (name : String) : String :=
  ⟨jsReplaceFirst "@appmorph/".data [] name.data⟩

/-- The body of the candidate loop of `resolveWorkspacePackage`: accept a
candidate directory iff its `package.json` parses and carries the wanted
name. -/
def candidateCheck (fs : FSState) (packageName : String) (pkgPath : FsPath) :
    Option FsPath :=
  match lookupFile fs (pkgPath ++ ["package.json"]) with
  | some (.manifest nm _ _) => if nm = packageName then some pkgPath else none
  | _ => none

/-- `resolveWorkspacePackage(packageName)`: try
`monorepoRoot/packages/<short>` then `monorepoRoot/plugins/<short>`;
`null` without a monorepo root. -/
def resolveWorkspacePackage (fs : FSState) (monorepoRoot : Option FsPath)
    (packageName : String) : Option FsPath :=
  match monorepoRoot with
  | none => none
  | some root =>
    [root ++ ["packages", stripScope packageName],
     root ++ ["plugins", stripScope packageName]].findSome?
      (candidateCheck fs packageName)

/-- One dependency rewrite of `resolveWorkspaceDependencies`: a
`workspace:` version whose package resolves becomes `file:<absolute path>`;
anything else is kept. -/
def rewriteDep (fs : FSState) (mono : Option FsPath) (d : String × String) :
    String × String :=
  if d.2.startsWith "workspace:" then
    match resolveWorkspacePackage fs mono d.1 with
    | some p => (d.1, "file:" ++ pathStr p)
    | none => d
  else d

/-- The manifest transformation `resolveWorkspaceDependencies` applies to
the stage's `package.json` (text files — parse failures — are left alone). -/
def rewriteManifestData (fs : FSState) (mono : Option FsPath) : FileData → FileData
  | .manifest nm deps devDeps =>
    .manifest nm (deps.map (rewriteDep fs mono)) (devDeps.map (rewriteDep fs mono))
  | .text s => .text s

/-- `resolveWorkspaceDependencies(stagePath)`: rewrite the stage's
`package.json` in place; missing or unparseable manifests leave the state
unchanged. -/
def resolveWorkspaceDependencies (fs : FSState) (mono : Option FsPath)
    (stagePath : FsPath) : FSState :=
  match lookupFile fs (stagePath ++ ["package.json"]) with
  | some (.manifest nm deps devDeps) =>
    { fs with files := fs.files.map fun f =>
        if f.1 = stagePath ++ ["package.json"] then
          (f.1, FileData.manifest nm (deps.map (rewriteDep fs mono))
            (devDeps.map (rewriteDep fs mono)))
        else f }
  | _ => fs

/-- Configuration of the staging manager: the original source tree, the
stage root (`cwd/stage`) and the monorepo root found by
`findMonorepoRoot` (if any). -/
structure StagingConfig where
  source_location : FsPath
  stageRoot : FsPath
  monorepoRoot : Option FsPath
deriving Repr

/-- The `StageInfo` returned by `createChainedStage`, with the stage path in
segment form. -/
structure ChainedStageInfo where
  sessionId : String
  stagePath : FsPath
deriving DecidableEq, Repr

/-- `getStagePath(sessionId) = resolve(stageRoot, sessionId)`. -/
def getStagePath (cfg : StagingConfig) (sessionId : String) : FsPath :=
  cfg.stageRoot ++ [sessionId]

/-- The first phase of `createChainedStage`: remove any pre-existing stage
directory for the session and recreate it empty. -/
def freshStageFS (cfg : StagingConfig) (fs : FSState) (sessionId : String) : FSState :=
  let stagePath := getStagePath cfg sessionId
  let fs1 := if dirExists fs stagePath then removeTree fs stagePath else fs
  { fs1 with dirs := stagePath :: fs1.dirs }

/-- The source-selection step of `createChainedStage`: the parent's stage
when the parent id is truthy (non-empty) and its directory exists, else the
original source.  Also returns whether the copy is from a parent stage and
whether the missing-parent warning was logged. -/
def chooseSource (cfg : StagingConfig) (fs2 : FSState) (parentSessionId : Option String) :
    FsPath × Bool × Bool :=
  match parentSessionId with
  | some p =>
    if p = "" then (cfg.source_location, false, false)
    else if dirExists fs2 (getStagePath cfg p) then (getStagePath cfg p, true, false)
    else (cfg.source_location, false, true)
  | none => (cfg.source_location, false, false)

/-- `FileSystemStagingManager.createChainedStage(sessionId, parentSessionId)`,
composed from the phases above: remove + recreate the stage directory,
choose the source, copy with the directory filter, and rewrite workspace
dependencies only when the copy came from the original source. -/
def createChainedStage (cfg : StagingConfig) (fs : FSState) (sessionId : String)
    (parentSessionId : Option String) : FSState × ChainedStageInfo × Bool :=
  let stagePath := getStagePath cfg sessionId
  let fs2 := freshStageFS cfg fs sessionId
  let choice := chooseSource cfg fs2 parentSessionId
  let fs3 := copyFiltered fs2 choice.1 stagePath
  let fs4 := if choice.2.1 then fs3
    else resolveWorkspaceDependencies fs3 cfg.monorepoRoot stagePath
  (fs4, ⟨sessionId, stagePath⟩, choice.2.2)

/-- Characterization of a successful `stripDir`. -/
theorem stripDir_eq_some (dir p r : FsPath) (h : stripDir dir p = some r) :
    p = dir ++ r ∧ r ≠ [] := by
  unfold stripDir at h
  by_cases hc : dir <+: p ∧ dir.length < p.length
  · rw [if_pos hc] at h
    injection h with h2
    obtain ⟨t, ht⟩ := hc.1
    have hdrop : p.drop dir.length = t := by
      rw [← ht]
      exact List.drop_left dir t
    constructor
    · rw [← h2, hdrop, ht]
    · rw [← h2, hdrop]
      intro hr
      subst hr
      have h3 := hc.2
      rw [← ht] at h3
      simp at h3
  · rw [if_neg hc] at h
    cases h

/-- `stripDir` on a path laid out under the directory. -/
theorem stripDir_append (dir rel : FsPath) (hne : rel ≠ []) :
    stripDir dir (dir ++ rel) = some rel := by
  unfold stripDir
  rw [if_pos]
  · rw [List.drop_left]
  · refine ⟨List.prefix_append dir rel, ?_⟩
    rw [List.length_append]
    have h0 : 0 < rel.length := List.length_pos.mpr hne
    omega

/-- Filtering out only elements the search predicate rejects does not change
`find?`. -/
theorem find?_filter_keep {α : Type} (p q : α → Bool)
    (h : ∀ x, p x = true → q x = true) (l : List α) :
    (l.filter q).find? p = l.find? p := by
  induction l with
  | nil => rfl
  | cons x rest ih =>
    cases hq : q x
    · have hp : p x = false := by
        cases hp : p x
        · rfl
        · exact absurd (h x hp) (by simp [hq])
      rw [List.filter_cons_of_neg (by simp [hq]), ih,
        List.find?_cons_of_neg _ (by simp [hp])]
    · rw [List.filter_cons_of_pos (by simp [hq])]
      cases hp : p x
      · rw [List.find?_cons_of_neg _ (by simp [hp]),
          List.find?_cons_of_neg _ (by simp [hp]), ih]
      · rw [List.find?_cons_of_pos _ (by simp [hp]),
          List.find?_cons_of_pos _ (by simp [hp])]

/-- Looking a copied file up under the destination finds exactly the source
file under the source directory. -/
theorem find?_copyList (src dest : FsPath) (files : List (FsPath × FileData))
    (rel : FsPath) (hrel : relOk rel = true) (hne : rel ≠ []) :
    ((copyList src dest files).find? fun f => decide (f.1 = dest ++ rel)).map (·.2)
      = (files.find? fun f => decide (f.1 = src ++ rel)).map (·.2) := by
  induction files with
  | nil => rfl
  | cons f rest ih =>
    unfold copyList at ih ⊢
    rw [List.filterMap_cons]
    cases hstrip : stripDir src f.1 with
    | none =>
      have hg : copyEntry src dest f = none := by
        unfold copyEntry
        rw [hstrip]
      have hf : f.1 ≠ src ++ rel := by
        intro h
        rw [h, stripDir_append src rel hne] at hstrip
        cases hstrip
      rw [hg]
      rw [List.find?_cons_of_neg _ (by simp [hf])]
      exact ih
    | some rel2 =>
      obtain ⟨hf1, hne2⟩ := stripDir_eq_some src f.1 rel2 hstrip
      have hg : copyEntry src dest f
          = if relOk rel2 = true then some (dest ++ rel2, f.2) else none := by
        unfold copyEntry
        rw [hstrip]
      by_cases hok : relOk rel2 = true
      · rw [hg, if_pos hok]
        by_cases heq : rel2 = rel
        · subst heq
          rw [List.find?_cons_of_pos _ (by simp)]
          rw [List.find?_cons_of_pos _ (by simp [hf1])]
          rfl
        · have hd : ¬ ((dest ++ rel2, f.2).1 = dest ++ rel) := by
            simp only []
            intro hcc
            exact heq (List.append_cancel_left hcc)
          have hs : ¬ (f.1 = src ++ rel) := by
            rw [hf1]
            intro hcc
            exact heq (List.append_cancel_left hcc)
          rw [List.find?_cons_of_neg _ (by simp [hd])]
          rw [List.find?_cons_of_neg _ (by simp [hs])]
          exact ih
      · rw [hg, if_neg hok]
        have hs : ¬ (f.1 = src ++ rel) := by
          rw [hf1]
          intro hcc
          rw [List.append_cancel_left hcc] at hok
          exact hok hrel
        rw [List.find?_cons_of_neg _ (by simp [hs])]
        exact ih

/-- Every file produced by the filtered copy lies strictly under the
destination. -/
theorem copyList_key (src dest : FsPath) (files : List (FsPath × FileData))
    (x : FsPath × FileData) (hx : x ∈ copyList src dest files) :
    ∃ rel, rel ≠ [] ∧ x.1 = dest ++ rel := by
  unfold copyList at hx
  obtain ⟨f, hf, hfx⟩ := List.mem_filterMap.mp hx
  unfold copyEntry at hfx
  cases hstrip : stripDir src f.1 with
  | none =>
    rw [hstrip] at hfx
    cases hfx
  | some rel2 =>
    rw [hstrip] at hfx
    dsimp only at hfx
    by_cases hok : relOk rel2 = true
    · rw [if_pos hok] at hfx
      injection hfx with h2
      obtain ⟨-, hne2⟩ := stripDir_eq_some src f.1 rel2 hstrip
      exact ⟨rel2, hne2, by rw [← h2]⟩
    · rw [if_neg hok] at hfx
      cases hfx

/-- The filtered copy does not touch paths outside the destination. -/
theorem lookupFile_copyFiltered_other (fs : FSState) (src dest p : FsPath)
    (hp : ¬ dest <+: p) :
    lookupFile (copyFiltered fs src dest) p = lookupFile fs p := by
  unfold lookupFile copyFiltered
  rw [List.find?_append]
  have h1 : (copyList src dest fs.files).find? (fun f => decide (f.1 = p)) = none := by
    rw [List.find?_eq_none]
    intro a ha
    simp only [decide_eq_true_eq]
    intro hap
    obtain ⟨rel, hne, hkey⟩ := copyList_key src dest fs.files a ha
    rw [hap] at hkey
    apply hp
    rw [hkey]
    exact List.prefix_append dest rel
  rw [h1, Option.none_or]

/-- With no pre-existing file under the destination, looking up a copied
path reads the corresponding source file. -/
theorem lookupFile_copyFiltered_stage (fs : FSState) (src dest rel : FsPath)
    (hrel : relOk rel = true) (hne : rel ≠ [])
    (hcleanf : ∀ f ∈ fs.files, ¬ (dest <+: f.1)) :
    lookupFile (copyFiltered fs src dest) (dest ++ rel) = lookupFile fs (src ++ rel) := by
  unfold lookupFile copyFiltered
  rw [List.find?_append]
  have h2 : fs.files.find? (fun f => decide (f.1 = dest ++ rel)) = none := by
    rw [List.find?_eq_none]
    intro a ha
    simp only [decide_eq_true_eq]
    intro hap
    apply hcleanf a ha
    rw [hap]
    exact List.prefix_append dest rel
  rw [h2, Option.or_none]
  exact find?_copyList src dest fs.files rel hrel hne

/-- `rmSync` does not touch paths outside the removed tree. -/
theorem lookupFile_removeTree_of_not (fs : FSState) (root p : FsPath)
    (hp : ¬ root <+: p) :
    lookupFile (removeTree fs root) p = lookupFile fs p := by
  unfold lookupFile removeTree
  have harg : ∀ f : FsPath × FileData, decide (f.1 = p) = true →
      (!decide (root <+: f.1)) = true := by
    intro f hf
    simp only [decide_eq_true_eq] at hf
    simp [hf, hp]
  rw [find?_filter_keep _ _ harg]

/-- After `rmSync` nothing is left under the removed tree. -/
theorem removeTree_no_files (fs : FSState) (root : FsPath) :
    ∀ f ∈ (removeTree fs root).files, ¬ (root <+: f.1) := by
  intro f hf
  have h2 := (List.mem_filter.mp hf).2
  simp only [Bool.not_eq_eq_eq_not, Bool.not_true, decide_eq_false_iff_not] at h2
  exact h2

/-- `find?` over an updated association list. -/
theorem find?_map_update (l : List (FsPath × FileData)) (key : FsPath)
    (newData : FileData) (p : FsPath) :
    ((l.map fun f => if f.1 = key then (f.1, newData) else f).find?
        fun f => decide (f.1 = p)).map (·.2)
      = if p = key
        then ((l.find? fun f => decide (f.1 = p)).map fun _ => newData)
        else (l.find? fun f => decide (f.1 = p)).map (·.2) := by
  induction l with
  | nil =>
    by_cases hp : p = key
    · rw [if_pos hp]
      rfl
    · rw [if_neg hp]
      rfl
  | cons f rest ih =>
    rw [List.map_cons]
    by_cases hf : f.1 = key
    · rw [if_pos hf]
      by_cases hfp : f.1 = p
      · have hpk : p = key := by rw [← hfp, hf]
        rw [if_pos hpk]
        rw [List.find?_cons_of_pos _ (by simp [hfp]),
          List.find?_cons_of_pos _ (by simp [hfp])]
        rfl
      · by_cases hpk : p = key
        · rw [if_pos hpk]
          rw [List.find?_cons_of_neg _ (by simp [hfp]),
            List.find?_cons_of_neg _ (by simp [hfp])]
          have := ih
          rw [if_pos hpk] at this
          exact this
        · rw [if_neg hpk]
          rw [List.find?_cons_of_neg _ (by simp [hfp]),
            List.find?_cons_of_neg _ (by simp [hfp])]
          have := ih
          rw [if_neg hpk] at this
          exact this
    · rw [if_neg hf]
      by_cases hfp : f.1 = p
      · have hpk : ¬ p = key := by
          rw [← hfp]
          exact hf
        rw [if_neg hpk]
        rw [List.find?_cons_of_pos _ (by simp [hfp]),
          List.find?_cons_of_pos _ (by simp [hfp])]
      · by_cases hpk : p = key
        · rw [if_pos hpk]
          rw [List.find?_cons_of_neg _ (by simp [hfp]),
            List.find?_cons_of_neg _ (by simp [hfp])]
          have := ih
          rw [if_pos hpk] at this
          exact this
        · rw [if_neg hpk]
          rw [List.find?_cons_of_neg _ (by simp [hfp]),
            List.find?_cons_of_neg _ (by simp [hfp])]
          have := ih
          rw [if_neg hpk] at this
          exact this

/-- Reading any path after `resolveWorkspaceDependencies`: only the stage's
`package.json` changes, and it changes by `rewriteManifestData`. -/
theorem lookupFile_resolveWS (fs : FSState) (mono : Option FsPath) (sp p : FsPath) :
    lookupFile (resolveWorkspaceDependencies fs mono sp) p
      = if p = sp ++ ["package.json"]
        then (lookupFile fs p).map (rewriteManifestData fs mono)
        else lookupFile fs p := by
  unfold resolveWorkspaceDependencies
  cases hpkg : lookupFile fs (sp ++ ["package.json"]) with
  | none =>
    dsimp only
    by_cases hp : p = sp ++ ["package.json"]
    · rw [if_pos hp, hp, hpkg]
      rfl
    · rw [if_neg hp]
  | some d =>
    cases d with
    | text str =>
      dsimp only
      by_cases hp : p = sp ++ ["package.json"]
      · rw [if_pos hp, hp, hpkg]
        rfl
      · rw [if_neg hp]
    | manifest nm deps devDeps =>
      dsimp only
      show lookupFile ⟨_, _⟩ p = _
      unfold lookupFile
      rw [find?_map_update fs.files (sp ++ ["package.json"])
        (FileData.manifest nm (deps.map (rewriteDep fs mono))
          (devDeps.map (rewriteDep fs mono))) p]
      by_cases hp : p = sp ++ ["package.json"]
      · rw [if_pos hp, if_pos hp, hp]
        cases hfind : fs.files.find? fun f => decide (f.1 = sp ++ ["package.json"]) with
        | none => rfl
        | some f0 =>
          unfold lookupFile at hpkg
          rw [hfind] at hpkg
          have hf02 : f0.2 = FileData.manifest nm deps devDeps := by
            simpa using hpkg
          simp [hf02, rewriteManifestData]
      · rw [if_neg hp, if_neg hp]

/-- `resolveWorkspacePackage` only reads manifest names, which the rewrite
preserves, so resolution is unchanged by `resolveWorkspaceDependencies`. -/
theorem resolveWorkspacePackage_resolveWS (fs : FSState) (mono mono2 : Option FsPath)
    (sp : FsPath) (n : String) :
    resolveWorkspacePackage (resolveWorkspaceDependencies fs mono sp) mono2 n
      = resolveWorkspacePackage fs mono2 n := by
  have hc : candidateCheck (resolveWorkspaceDependencies fs mono sp) n
      = candidateCheck fs n := by
    funext c
    unfold candidateCheck
    rw [lookupFile_resolveWS]
    by_cases h : c ++ ["package.json"] = sp ++ ["package.json"]
    · rw [if_pos h]
      cases hlk : lookupFile fs (c ++ ["package.json"]) with
      | none => rfl
      | some d => cases d <;> rfl
    · rw [if_neg h]
  unfold resolveWorkspacePackage
  rw [hc]

/-- The manifest rewrite reads the filesystem only through
`resolveWorkspacePackage`, so it is a fixpoint of itself. -/
theorem rewriteManifestData_resolveWS (fs : FSState) (mono mono2 : Option FsPath)
    (sp : FsPath) (d : FileData) :
    rewriteManifestData (resolveWorkspaceDependencies fs mono sp) mono2 d
      = rewriteManifestData fs mono2 d := by
  cases d with
  | text str => rfl
  | manifest nm deps devDeps =>
    have hdep : rewriteDep (resolveWorkspaceDependencies fs mono sp) mono2
        = rewriteDep fs mono2 := by
      funext x
      unfold rewriteDep
      rw [resolveWorkspacePackage_resolveWS]
    unfold rewriteManifestData
    rw [hdep]

/-- Prefix comparison cancels a common left part. -/
theorem append_prefix_iff (a b c : FsPath) : (a ++ b <+: a ++ c) ↔ (b <+: c) := by
  constructor
  · rintro ⟨t, ht⟩
    rw [List.append_assoc] at ht
    exact ⟨t, List.append_cancel_left ht⟩
  · rintro ⟨t, ht⟩
    refine ⟨t, ?_⟩
    rw [List.append_assoc, ht]

/-- Stage paths of distinct sessions are prefix-incomparable with anything
under the other session. -/
theorem stage_not_prefix_parent (cfg : StagingConfig) (sid p : String)
    (rel : FsPath) (hne : p ≠ sid) :
    ¬ (getStagePath cfg sid <+: getStagePath cfg p ++ rel) := by
  unfold getStagePath
  rw [List.append_assoc, append_prefix_iff]
  rintro ⟨t, ht⟩
  have hh := congrArg (fun l => l.head?) ht
  simp at hh
  exact hne hh.symm

/-- Stage paths are injective in the session id. -/
theorem getStagePath_inj (cfg : StagingConfig) {a b : String}
    (h : getStagePath cfg a = getStagePath cfg b) : a = b := by
  unfold getStagePath at h
  have h2 := List.append_cancel_left h
  injection h2

/-- The stage path never reaches into the original source tree. -/
theorem stage_not_prefix_source (cfg : StagingConfig) (sid : String) (rel : FsPath)
    (hs1 : ¬ (getStagePath cfg sid <+: cfg.source_location))
    (hs2 : ¬ (cfg.source_location <+: getStagePath cfg sid)) :
    ¬ (getStagePath cfg sid <+: cfg.source_location ++ rel) := by
  intro h
  have hsp : cfg.source_location <+: cfg.source_location ++ rel :=
    List.prefix_append _ _
  have hor := List.prefix_or_prefix_of_prefix h hsp
  rcases hor with h1 | h1
  · exact hs1 h1
  · exact hs2 h1

/-- After the remove/recreate phase no file lies under the stage path
(given the state was coherent when the stage directory was absent). -/
theorem freshStageFS_files_clean (cfg : StagingConfig) (fs : FSState) (sid : String)
    (hclean : dirExists fs (getStagePath cfg sid) = false →
      ∀ f ∈ fs.files, ¬ (getStagePath cfg sid <+: f.1)) :
    ∀ f ∈ (freshStageFS cfg fs sid).files, ¬ (getStagePath cfg sid <+: f.1) := by
  unfold freshStageFS
  dsimp only
  by_cases hd : dirExists fs (getStagePath cfg sid) = true
  · rw [if_pos hd]
    exact removeTree_no_files fs (getStagePath cfg sid)
  · rw [if_neg hd]
    exact hclean (by symm; simpa using hd)

/-- The remove/recreate phase does not change files outside the stage. -/
theorem freshStageFS_lookup (cfg : StagingConfig) (fs : FSState) (sid : String)
    (p : FsPath) (hp : ¬ (getStagePath cfg sid <+: p)) :
    lookupFile (freshStageFS cfg fs sid) p = lookupFile fs p := by
  unfold freshStageFS
  dsimp only
  by_cases hd : dirExists fs (getStagePath cfg sid) = true
  · rw [if_pos hd]
    exact lookupFile_removeTree_of_not fs (getStagePath cfg sid) p hp
  · rw [if_neg hd]
    rfl

/-- The remove/recreate phase does not change the existence of unrelated
directories. -/
theorem freshStageFS_dirExists (cfg : StagingConfig) (fs : FSState) (sid : String)
    (q : FsPath) (hq : ¬ (getStagePath cfg sid <+: q))
    (hqs : q ≠ getStagePath cfg sid) :
    dirExists (freshStageFS cfg fs sid) q = dirExists fs q := by
  unfold freshStageFS
  dsimp only
  by_cases hd : dirExists fs (getStagePath cfg sid) = true
  · rw [if_pos hd]
    unfold dirExists removeTree
    refine decide_eq_decide.mpr ?_
    rw [List.mem_cons]
    constructor
    · rintro (h | h)
      · exact absurd h hqs
      · exact (List.mem_filter.mp h).1
    · intro h
      right
      rw [List.mem_filter]
      exact ⟨h, by simp [hq]⟩
  · rw [if_neg hd]
    unfold dirExists
    refine decide_eq_decide.mpr ?_
    rw [List.mem_cons]
    constructor
    · rintro (h | h)
      · exact absurd h hqs
      · exact h
    · intro h
      right
      exact h

/-- Branch equation: existing parent stage — copy from the parent, no
rewrite, no warning. -/
theorem createChainedStage_parent_eq (cfg : StagingConfig) (fs : FSState)
    (sid p : String) (hp0 : p ≠ "") (hne : p ≠ sid)
    (hd : dirExists fs (getStagePath cfg p) = true) :
    createChainedStage cfg fs sid (some p)
      = (copyFiltered (freshStageFS cfg fs sid) (getStagePath cfg p)
          (getStagePath cfg sid),
         ⟨sid, getStagePath cfg sid⟩, false) := by
  have hpe : dirExists (freshStageFS cfg fs sid) (getStagePath cfg p) = true := by
    rw [freshStageFS_dirExists cfg fs sid (getStagePath cfg p)
      (by simpa using stage_not_prefix_parent cfg sid p [] hne)
      (fun h => hne (getStagePath_inj cfg h))]
    exact hd
  have hch : chooseSource cfg (freshStageFS cfg fs sid) (some p)
      = (getStagePath cfg p, true, false) := by
    unfold chooseSource
    dsimp only
    rw [if_neg hp0, if_pos hpe]
  unfold createChainedStage
  dsimp only
  rw [hch]
  rfl

/-- Branch equation: requested parent whose stage is missing — copy from the
original source, rewrite, warning. -/
theorem createChainedStage_missing_eq (cfg : StagingConfig) (fs : FSState)
    (sid p : String) (hp0 : p ≠ "") (hne : p ≠ sid)
    (hd : dirExists fs (getStagePath cfg p) = false) :
    createChainedStage cfg fs sid (some p)
      = (resolveWorkspaceDependencies
          (copyFiltered (freshStageFS cfg fs sid) cfg.source_location
            (getStagePath cfg sid))
          cfg.monorepoRoot (getStagePath cfg sid),
         ⟨sid, getStagePath cfg sid⟩, true) := by
  have hpe : ¬ dirExists (freshStageFS cfg fs sid) (getStagePath cfg p) = true := by
    rw [freshStageFS_dirExists cfg fs sid (getStagePath cfg p)
      (by simpa using stage_not_prefix_parent cfg sid p [] hne)
      (fun h => hne (getStagePath_inj cfg h))]
    simp [hd]
  have hch : chooseSource cfg (freshStageFS cfg fs sid) (some p)
      = (cfg.source_location, false, true) := by
    unfold chooseSource
    dsimp only
    rw [if_neg hp0, if_neg hpe]
  unfold createChainedStage
  dsimp only
  rw [hch]
  rfl

/-- Branch equation: no parent — copy from the original source, rewrite, no
warning. -/
theorem createChainedStage_none_eq (cfg : StagingConfig) (fs : FSState)
    (sid : String) :
    createChainedStage cfg fs sid none
      = (resolveWorkspaceDependencies
          (copyFiltered (freshStageFS cfg fs sid) cfg.source_location
            (getStagePath cfg sid))
          cfg.monorepoRoot (getStagePath cfg sid),
         ⟨sid, getStagePath cfg sid⟩, false) := rfl

/-- Reading a stage file after a copy from the original source followed by
the workspace rewrite. -/
theorem lookup_sourceStage (cfg : StagingConfig) (fs : FSState) (sid : String)
    (hclean : dirExists fs (getStagePath cfg sid) = false →
      ∀ f ∈ fs.files, ¬ (getStagePath cfg sid <+: f.1))
    (hs1 : ¬ (getStagePath cfg sid <+: cfg.source_location))
    (hs2 : ¬ (cfg.source_location <+: getStagePath cfg sid))
    (rel : FsPath) (hne : rel ≠ []) (hok : relOk rel = true) :
    lookupFile (resolveWorkspaceDependencies
        (copyFiltered (freshStageFS cfg fs sid) cfg.source_location
          (getStagePath cfg sid))
        cfg.monorepoRoot (getStagePath cfg sid))
      (getStagePath cfg sid ++ rel)
    = if rel = ["package.json"]
      then (lookupFile fs (cfg.source_location ++ rel)).map
        (rewriteManifestData
          (copyFiltered (freshStageFS cfg fs sid) cfg.source_location
            (getStagePath cfg sid))
          cfg.monorepoRoot)
      else lookupFile fs (cfg.source_location ++ rel) := by
  rw [lookupFile_resolveWS]
  have hcopy : lookupFile
      (copyFiltered (freshStageFS cfg fs sid) cfg.source_location
        (getStagePath cfg sid))
      (getStagePath cfg sid ++ rel)
      = lookupFile fs (cfg.source_location ++ rel) := by
    rw [lookupFile_copyFiltered_stage (freshStageFS cfg fs sid) cfg.source_location
      (getStagePath cfg sid) rel hok hne (freshStageFS_files_clean cfg fs sid hclean)]
    exact freshStageFS_lookup cfg fs sid (cfg.source_location ++ rel)
      (stage_not_prefix_source cfg sid rel hs1 hs2)
  by_cases hrel : rel = ["package.json"]
  · rw [if_pos (by rw [hrel]), if_pos hrel, hcopy]
  · rw [if_neg (fun h => hrel (List.append_cancel_left h)), if_neg hrel]
    exact hcopy

/-- C7: source selection of `createChainedStage` — with a truthy parent id
whose stage directory exists, the new stage is a filtered copy of the
parent's stage with every file byte-identical (the manifest rewrite is
skipped) and no warning; with a missing parent stage, or no parent, the
stage is a filtered copy of the original source whose `package.json` is
rewritten by `rewriteManifestData`, a `StageInfo` is still returned, and
the warning flag is set exactly in the missing-parent case; a `workspace:`
dependency that resolves is rewritten to the absolute `file:` path. -/
theorem createChainedStage_spec (cfg : StagingConfig) (fs : FSState) (sid : String)
    (hclean : dirExists fs (getStagePath cfg sid) = false →
      ∀ f ∈ fs.files, ¬ (getStagePath cfg sid <+: f.1))
    (hs1 : ¬ (getStagePath cfg sid <+: cfg.source_location))
    (hs2 : ¬ (cfg.source_location <+: getStagePath cfg sid)) :
    (∀ p : String, p ≠ "" → p ≠ sid →
      dirExists fs (getStagePath cfg p) = true →
      (createChainedStage cfg fs sid (some p)).2.2 = false
      ∧ (createChainedStage cfg fs sid (some p)).2.1 = ⟨sid, getStagePath cfg sid⟩
      ∧ ∀ rel : FsPath, rel ≠ [] → relOk rel = true →
          lookupFile (createChainedStage cfg fs sid (some p)).1
              (getStagePath cfg sid ++ rel)
            = lookupFile fs (getStagePath cfg p ++ rel))
    ∧ (∀ p : String, p ≠ "" → p ≠ sid →
      dirExists fs (getStagePath cfg p) = false →
      (createChainedStage cfg fs sid (some p)).2.2 = true
      ∧ (createChainedStage cfg fs sid (some p)).2.1 = ⟨sid, getStagePath cfg sid⟩
      ∧ (∀ rel : FsPath, rel ≠ [] → relOk rel = true → rel ≠ ["package.json"] →
          lookupFile (createChainedStage cfg fs sid (some p)).1
              (getStagePath cfg sid ++ rel)
            = lookupFile fs (cfg.source_location ++ rel))
      ∧ lookupFile (createChainedStage cfg fs sid (some p)).1
            (getStagePath cfg sid ++ ["package.json"])
          = (lookupFile fs (cfg.source_location ++ ["package.json"])).map
              (rewriteManifestData (createChainedStage cfg fs sid (some p)).1
                cfg.monorepoRoot))
    ∧ ((createChainedStage cfg fs sid none).2.2 = false
      ∧ (createChainedStage cfg fs sid none).2.1 = ⟨sid, getStagePath cfg sid⟩
      ∧ (∀ rel : FsPath, rel ≠ [] → relOk rel = true → rel ≠ ["package.json"] →
          lookupFile (createChainedStage cfg fs sid none).1
              (getStagePath cfg sid ++ rel)
            = lookupFile fs (cfg.source_location ++ rel))
      ∧ lookupFile (createChainedStage cfg fs sid none).1
            (getStagePath cfg sid ++ ["package.json"])
          = (lookupFile fs (cfg.source_location ++ ["package.json"])).map
              (rewriteManifestData (createChainedStage cfg fs sid none).1
                cfg.monorepoRoot))
    ∧ (∀ (n v : String) (q : FsPath) (fsx : FSState),
        v.startsWith "workspace:" = true →
        resolveWorkspacePackage fsx cfg.monorepoRoot n = some q →
        rewriteDep fsx cfg.monorepoRoot (n, v) = (n, "file:" ++ pathStr q)) := by
  refine ⟨?_, ?_, ?_, ?_⟩
  · intro p hp0 hne hd
    rw [createChainedStage_parent_eq cfg fs sid p hp0 hne hd]
    refine ⟨rfl, rfl, ?_⟩
    intro rel hrne hrok
    show lookupFile (copyFiltered (freshStageFS cfg fs sid) (getStagePath cfg p)
        (getStagePath cfg sid)) (getStagePath cfg sid ++ rel)
      = lookupFile fs (getStagePath cfg p ++ rel)
    rw [lookupFile_copyFiltered_stage (freshStageFS cfg fs sid) (getStagePath cfg p)
      (getStagePath cfg sid) rel hrok hrne (freshStageFS_files_clean cfg fs sid hclean)]
    exact freshStageFS_lookup cfg fs sid (getStagePath cfg p ++ rel)
      (stage_not_prefix_parent cfg sid p rel hne)
  · intro p hp0 hne hd
    rw [createChainedStage_missing_eq cfg fs sid p hp0 hne hd]
    refine ⟨rfl, rfl, ?_, ?_⟩
    · intro rel hrne hrok hrpkg
      have h := lookup_sourceStage cfg fs sid hclean hs1 hs2 rel hrne hrok
      rw [if_neg hrpkg] at h
      exact h
    · have h := lookup_sourceStage cfg fs sid hclean hs1 hs2 ["package.json"]
        (by simp) (by decide)
      rw [if_pos rfl] at h
      show lookupFile (resolveWorkspaceDependencies _ _ _) _ = _
      rw [h]
      have hrw : rewriteManifestData
          (resolveWorkspaceDependencies
            (copyFiltered (freshStageFS cfg fs sid) cfg.source_location
              (getStagePath cfg sid))
            cfg.monorepoRoot (getStagePath cfg sid)) cfg.monorepoRoot
          = rewriteManifestData
            (copyFiltered (freshStageFS cfg fs sid) cfg.source_location
              (getStagePath cfg sid)) cfg.monorepoRoot := by
        funext d
        exact rewriteManifestData_resolveWS _ _ _ _ d
      rw [hrw]
  · rw [createChainedStage_none_eq cfg fs sid]
    refine ⟨rfl, rfl, ?_, ?_⟩
    · intro rel hrne hrok hrpkg
      have h := lookup_sourceStage cfg fs sid hclean hs1 hs2 rel hrne hrok
      rw [if_neg hrpkg] at h
      exact h
    · have h := lookup_sourceStage cfg fs sid hclean hs1 hs2 ["package.json"]
        (by simp) (by decide)
      rw [if_pos rfl] at h
      show lookupFile (resolveWorkspaceDependencies _ _ _) _ = _
      rw [h]
      have hrw : rewriteManifestData
          (resolveWorkspaceDependencies
            (copyFiltered (freshStageFS cfg fs sid) cfg.source_location
              (getStagePath cfg sid))
            cfg.monorepoRoot (getStagePath cfg sid)) cfg.monorepoRoot
          = rewriteManifestData
            (copyFiltered (freshStageFS cfg fs sid) cfg.source_location
              (getStagePath cfg sid)) cfg.monorepoRoot := by
        funext d
        exact rewriteManifestData_resolveWS _ _ _ _ d
      rw [hrw]
  · intro n v q fsx hv hres
    unfold rewriteDep
    rw [if_pos hv]
    rw [hres]

/-- Demo staging configuration: source at `src`, stages under `stage`,
monorepo root `repo`. -/
def demoStagingConfig : StagingConfig := ⟨["src"], ["stage"], some ["repo"]⟩

/-- Demo filesystem: a parent stage `p1` with an edited file, and the
original source tree. -/
def demoFS : FSState :=
  ⟨[(["stage", "p1", "app.ts"], .text "parent edit"),
    (["src", "app.ts"], .text "original")],
   [["stage", "p1"]]⟩

/-- Closed instantiation of `createChainedStage_spec`: chaining `s1` from
the existing parent stage `p1` emits no warning and the new stage's file is
read from the parent's stage. -/
theorem createChainedStage_spec_witness :
    (createChainedStage demoStagingConfig demoFS "s1" (some "p1")).2.2 = false
    ∧ lookupFile (createChainedStage demoStagingConfig demoFS "s1" (some "p1")).1
        (getStagePath demoStagingConfig "s1" ++ ["app.ts"])
      = lookupFile demoFS (getStagePath demoStagingConfig "p1" ++ ["app.ts"]) := by
  obtain ⟨h1, h23⟩ := (createChainedStage_spec demoStagingConfig demoFS "s1"
    (by decide) (by decide) (by decide)).1 "p1" (by decide) (by decide) (by decide)
  exact ⟨h1, h23.2 ["app.ts"] (by decide) (by decide)⟩

end Appmorph
